import Mathlib

/-!
Verification development for the Tegra host1x command-submission core:
channel pool (drivers/gpu/host1x/channel.c), syncpoint fence bridge
(drivers/gpu/host1x/fence.c) and the DRM submission ioctl path
(drivers/gpu/drm/tegra/uapi/submit.c).

The C sources are embedded shallowly: machine integers become Nat with
explicit truncation where overflow matters, fallible calls become
Except/Option, kernel-library services (semaphore credits, krefs,
allocators, copy_from_user) become explicit state or oracle parameters
recording success/failure of each call.
-/

namespace Host1x

/-! ## Channel pool (drivers/gpu/host1x/channel.c) -/

/-- Error codes surfaced by the channel-pool operations. -/
inductive ChanErr where
  | EINTR
  | EBUSY
  | EIO
  deriving Repr, DecidableEq

/-- A leased hardware channel as returned by `host1x_channel_request`:
slot index, kref value and whether its push buffer is mapped. -/
structure Channel where
  id : Nat
  refcount : Nat
  pbMapped : Bool
  deriving Repr, DecidableEq

/-- State of `struct host1x_channel_list`: the pool size, the counting
semaphore's remaining credits, the allocation bitmap, and which slots
retain a previously initialized (mapped) push buffer. -/
structure ChannelList where
  numChannels : Nat
  sema : Nat
  allocated : List Bool
  pbRetained : List Bool
  deriving Repr, DecidableEq

/-- `host1x_channel_list_init`: empty bitmap, semaphore credits equal to
the channel count, no push buffers mapped yet. -/
def host1x_channel_list_init (n : Nat) : ChannelList :=
  { numChannels := n
    sema := n
    allocated := List.replicate n false
    pbRetained := List.replicate n false }

/-- `find_first_zero_bit`: index of the first clear bit, or the length of
the bitmap when every bit is set. -/
def find_first_zero_bit (bits : List Bool) : Nat :=
  bits.findIdx (fun b => !b)

/-- Outcome of `acquire_unused_channel`.  `blocked` stands for the
blocking wait inside `down_interruptible` when no credit is available:
the call does not return until some release posts the semaphore. -/
inductive AcqRes where
  | ok (st : ChannelList) (index : Nat)
  | err (st : ChannelList) (e : ChanErr)
  | blocked
  deriving Repr, DecidableEq

/-- `acquire_unused_channel`: take a semaphore credit (failing with
`-EBUSY` on `down_trylock` when `wait` is false, with `-EINTR` when a
signal interrupts the sleep), then scan the bitmap for the first free
slot and mark it allocated.  The `WARN` branch (no free bit despite a
credit) returns `-EBUSY` without giving the credit back, exactly as the
source does. -/
def acquire_unused_channel (st : ChannelList) (wait interrupted : Bool) : AcqRes :=
  if wait && interrupted then
    .err st .EINTR
  else if st.sema = 0 then
    (if wait then .blocked else .err st .EBUSY)
  else
    let st1 : ChannelList := { st with sema := st.sema - 1 }
    let index := find_first_zero_bit st1.allocated
    if st1.numChannels ≤ index then
      .err st1 .EBUSY
    else
      .ok { st1 with allocated := st1.allocated.set index true } index

/-- Success/failure of the hardware-facing calls made by
`host1x_channel_request` after a slot is acquired:
`host1x_hw_channel_init`, `host1x_cdma_init`, `host1x_pushbuffer_init`. -/
structure InitOracle where
  hwInitOk : Bool
  cdmaInitOk : Bool
  pbInitOk : Bool
  deriving Repr, DecidableEq

/-- Outcome of `host1x_channel_request` together with the pool state it
leaves behind. -/
inductive ReqRes where
  | ok (st : ChannelList) (ch : Channel)
  | err (st : ChannelList) (e : ChanErr)
  | blocked
  deriving Repr, DecidableEq

/-- `host1x_channel_request`: acquire a slot, `kref_init` the refcount to
one, run hardware init, and initialize the push buffer unless the slot
retains a mapped one from an earlier lease.  On init failure the fail
label clears the bitmap bit and propagates the error; the semaphore
credit taken by `acquire_unused_channel` is not returned. -/
def host1x_channel_request (st : ChannelList) (wait interrupted : Bool)
    (o : InitOracle) : ReqRes :=
  match acquire_unused_channel st wait interrupted with
  | .blocked => .blocked
  | .err st' e => .err st' e
  | .ok st' index =>
    if o.hwInitOk = false || o.cdmaInitOk = false then
      .err { st' with allocated := st'.allocated.set index false } ChanErr.EIO
    else if st'.pbRetained.getD index false then
      .ok st' { id := index, refcount := 1, pbMapped := true }
    else if o.pbInitOk then
      .ok { st' with pbRetained := st'.pbRetained.set index true }
        { id := index, refcount := 1, pbMapped := true }
    else
      .err { st' with allocated := st'.allocated.set index false } ChanErr.EIO

/-- `release_channel` (the kref release of the last channel reference):
stop command DMA, clear the slot's bitmap bit and post the semaphore.
The push buffer is retained for the next lease. -/
def release_channel (st : ChannelList) (id : Nat) : ChannelList :=
  { st with allocated := st.allocated.set id false, sema := st.sema + 1 }

/-- Number of slots currently marked allocated in the bitmap. -/
def countAlloc (st : ChannelList) : Nat :=
  st.allocated.count true

/-- One observable transition of the channel pool: a channel request
(successful or failed, blocking requests only when a credit exists), or
the final release of a channel whose slot is allocated. -/
inductive PoolStep : ChannelList → ChannelList → Prop where
  | requestOk (st : ChannelList) (wait interrupted : Bool) (o : InitOracle)
      (st' : ChannelList) (ch : Channel)
      (h : host1x_channel_request st wait interrupted o = .ok st' ch) :
      PoolStep st st'
  | requestErr (st : ChannelList) (wait interrupted : Bool) (o : InitOracle)
      (st' : ChannelList) (e : ChanErr)
      (h : host1x_channel_request st wait interrupted o = .err st' e) :
      PoolStep st st'
  | release (st : ChannelList) (id : Nat)
      (hid : id < st.allocated.length)
      (halloc : st.allocated.getD id false = true) :
      PoolStep st (release_channel st id)

/-- States of the channel pool reachable from `host1x_channel_list_init n`. -/
inductive Reachable (n : Nat) : ChannelList → Prop where
  | init : Reachable n (host1x_channel_list_init n)
  | step {st st' : ChannelList} :
      Reachable n st → PoolStep st st' → Reachable n st'

/-- The pool invariant: well-formed sizes, and allocated slots plus
remaining semaphore credits never exceed the pool size (the sum can
drop below it: a failed hardware init consumes a credit for good). -/
def PoolInv (n : Nat) (st : ChannelList) : Prop :=
  st.numChannels = n ∧ st.allocated.length = n ∧
  countAlloc st + st.sema ≤ n

/-- An oracle on which hardware and push-buffer init succeed. -/
def exInitOk : InitOracle := { hwInitOk := true, cdmaInitOk := true, pbInitOk := true }

/-- The state of a size-1 pool after its single channel is leased. -/
def exFullPool : ChannelList :=
  { numChannels := 1, sema := 0, allocated := [true], pbRetained := [true] }

end Host1x

namespace Fence

/-! ## Fence bridge (drivers/gpu/host1x/fence.c)

The Android sync framework primitives (`sync_pt_create`,
`sync_pt_parent`, `sync_timeline_create`) live outside the selected
sources; they are modelled as plain record construction: a timeline
carries its ops table (here just the fact of whether it is the host1x
ops table) and a sync point carries its parent timeline. -/

/-- `struct sync_timeline` as the bridge sees it: whether `tl->ops`
equals `&host1x_timeline_ops`, and the `syncpt` field of the embedding
`host1x_sync_timeline` (meaningful only for host1x-created timelines). -/
structure SyncTimeline where
  opsIsHost1x : Bool
  syncptId : Nat
  deriving Repr, DecidableEq

/-- A host1x syncpoint as used by fence.c: its id and the timeline
attached to it. -/
structure Syncpt where
  id : Nat
  timeline : SyncTimeline
  deriving Repr, DecidableEq

/-- `struct host1x_sync_pt`: the embedded `sync_pt` (represented by its
parent timeline) plus the threshold. -/
structure SyncPtObj where
  parent : SyncTimeline
  threshold : Nat
  deriving Repr, DecidableEq

/-- `host1x_sync_timeline_create`: makes a timeline whose ops table is
`host1x_timeline_ops` and whose `syncpt` field is the given syncpoint. -/
def host1x_sync_timeline_create (syncptId : Nat) : SyncTimeline :=
  { opsIsHost1x := true, syncptId := syncptId }

/-- Success/failure of the three fallible calls inside
`host1x_sync_pt_create`: `sync_pt_create`, the waiter `kzalloc`, and
`host1x_intr_add_action`. -/
structure FenceAllocOracle where
  ptAllocOk : Bool
  waiterAllocOk : Bool
  intrAddOk : Bool
  deriving Repr, DecidableEq

/-- `host1x_sync_pt_create`: allocate a sync point on the syncpoint's
timeline, record the threshold, and register the signal action; any
allocation or registration failure yields NULL. -/
def host1x_sync_pt_create (sp : Syncpt) (threshold : Nat)
    (o : FenceAllocOracle) : Option SyncPtObj :=
  if !o.ptAllocOk then
    none
  else if !o.waiterAllocOk then
    none
  else if !o.intrAddOk then
    none
  else
    some { parent := sp.timeline, threshold := threshold }

/-- `host1x_sync_pt_extract`: recover `(syncpoint, threshold)` from a
sync point whose parent timeline uses the host1x ops table; report
failure for any other timeline. -/
def host1x_sync_pt_extract (pt : SyncPtObj) : Option (Nat × Nat) :=
  if pt.parent.opsIsHost1x then
    some (pt.parent.syncptId, pt.threshold)
  else
    none

end Fence

namespace Submit

/-! ## Submission ioctl path (drivers/gpu/drm/tegra/uapi/submit.c) -/

/-- Error codes used on the submission path. -/
inductive Err where
  | EINVAL
  | ENOMEM
  | EFAULT
  | EINTR
  | EDEADLK
  | EIO
  deriving Repr, DecidableEq

/-- Modelled from the spec: the uapi header with the
`DRM_TEGRA_SUBMIT_BUF_*` flag bit values is not among the selected
sources; the flags are represented as three distinct bits. -/
def DRM_TEGRA_SUBMIT_BUF_RELOC_BLOCKLINEAR : Nat := 1

/-- Buffer-usage flag requesting an implicit read dependency. -/
def DRM_TEGRA_SUBMIT_BUF_RESV_READ : Nat := 2

/-- Buffer-usage flag requesting an implicit write dependency. -/
def DRM_TEGRA_SUBMIT_BUF_RESV_WRITE : Nat := 4

/-- Syncpoint-increment flag requesting an exported sync-file fd. -/
def DRM_TEGRA_SUBMIT_SYNCPT_INCR_CREATE_SYNC_FILE : Nat := 1

/-- The kernel-owned copy of the caller's gather words
(`struct gather_bo`); `gather_data_len` is the word count, here the
length of the list. -/
structure GatherBo where
  gather_data : List Nat
  deriving Repr, DecidableEq

/-- A registered GPU-visible buffer region (`struct tegra_drm_mapping`)
as the submission path reads it: its resolved device address. -/
structure Mapping where
  iova : Nat
  deriving Repr, DecidableEq

/-- The relocation part of `struct drm_tegra_submit_buf`. -/
structure BufReloc where
  target_offset : Nat
  gather_offset_words : Nat
  shift : Nat
  deriving Repr, DecidableEq

/-- `struct drm_tegra_submit_buf`. -/
structure SubmitBuf where
  mapping_id : Nat
  flags : Nat
  reserved0 : Nat
  reserved1 : Nat
  reloc : BufReloc
  deriving Repr, DecidableEq

/-- The tagged command union of `struct drm_tegra_submit_cmd`; `unknown`
covers every `type` value outside the three recognized ones. -/
inductive SubmitCmd where
  | gatherUptr (words : Nat) (reserved0 reserved1 reserved2 : Nat)
  | waitSyncpt (id : Nat) (threshold : Nat) (reserved0 reserved1 : Nat)
  | waitSyncFile (fd : Nat) (reserved0 reserved1 reserved2 : Nat)
  | unknown (ty : Nat)
  deriving Repr, DecidableEq

/-- One entry of `args->syncpt_incrs`. -/
structure SubmitIncr where
  syncpt_fd : Nat
  num_incrs : Nat
  flags : Nat
  reserved0 : Nat
  reserved1 : Nat
  reserved2 : Nat
  deriving Repr, DecidableEq

/-- `struct drm_tegra_channel_submit` after the user arrays have been
read: the reserved words, the buffer descriptors, the command list, the
raw gather words and the two syncpoint-increment descriptors (the
in-scope protocol version uses only the first; the second must be
empty). -/
structure SubmitArgs where
  reserved0 : Nat
  reserved1 : Nat
  bufs : List SubmitBuf
  cmds : List SubmitCmd
  gather_data : List Nat
  incr0 : SubmitIncr
  incr1_num_incrs : Nat
  deriving Repr, DecidableEq

/-- Resource events emitted by the embedded submission path, recording
every acquire/release of the resources the unwind contract is about.
The constructors `mapRegister`/`mapUnregister` (registry `xa_store` and
`xa_erase`) and `chanRequest`/`chanPut` (channel-pool operations) stand
for operations other ioctls perform; the submission path never emits
them, which the theorems state explicitly. -/
inductive Ev where
  | mapGet (id : Nat)
  | mapPut (id : Nat)
  | boPut
  | jobPut
  | jobFreed
  | jobPin
  | jobUnpin
  | pmGet
  | pmPut
  | ctxUnlock
  | cpuWait (fence : Nat) (interruptible : Bool)
  | implicitFenceWait
  | hwSubmit
  | resvUnlockAll
  | syncptIncr
  | chanRequest
  | chanPut
  | mapRegister (id : Nat)
  | mapUnregister (id : Nat)
  deriving Repr, DecidableEq

/-- Success/failure of every fallible external call the ioctl makes, in
program order: context lookup, allocations and user copies, syncpoint-fd
resolution, per-fd sync-file fence resolution, per-fence CPU waits, job
pinning, runtime-power acquisition, reservation locking, hardware
submission, postfence construction, and the final implicit-fence wait
loop. -/
structure SubmitOracle where
  ctxFound : Bool
  copyGatherRes : Option Err
  jobDataAllocOk : Bool
  bufsCopyRes : Option Err
  mappingsAllocOk : Bool
  cmdsCopyRes : Option Err
  jobAllocOk : Bool
  syncptFdRes : Except Err Nat
  syncFileFence : Nat → Option Nat
  fenceWaitRes : Nat → Option Err
  pinRes : Option Err
  pmRes : Option Err
  resvRes : Option Err
  submitRes : Option Err
  postfenceRes : Option Err
  implicitWaitOk : Bool

/-- The mask of permitted `drm_tegra_submit_buf` flag bits. -/
def BUF_FLAGS_MASK : Nat :=
  DRM_TEGRA_SUBMIT_BUF_RELOC_BLOCKLINEAR |||
  DRM_TEGRA_SUBMIT_BUF_RESV_READ ||| DRM_TEGRA_SUBMIT_BUF_RESV_WRITE

/-- `struct tegra_drm_used_mapping`, keeping the registry id for the
reference-count ledger. -/
structure UsedMapping where
  mapping_id : Nat
  mapping : Mapping
  flags : Nat
  deriving Repr, DecidableEq

/-- `xa_load` on the channel context's mapping registry. -/
def xa_load (ctx : List (Nat × Mapping)) (id : Nat) : Option Mapping :=
  (ctx.find? (fun p => p.1 == id)).map Prod.snd

/-- `submit_copy_gather_data`: reject an empty gather blob, then
allocate the kernel copy (the `words * 4` size cannot overflow a
`size_t` since `words` is a `u32`). -/
def submit_copy_gather_data (args : SubmitArgs) (o : SubmitOracle) :
    Except Err GatherBo :=
  if args.gather_data.length = 0 then
    .error .EINVAL
  else
    match o.copyGatherRes with
    | some e => .error e
    | none => .ok { gather_data := args.gather_data }

/-- `submit_write_reloc`: compute the patched pointer (the `u32` store
truncates both the shifted address and the `BIT(39)` block-linear tag),
bounds-check the gather word offset, and patch the kernel-owned gather
copy at that offset (`array_index_nospec` is the identity once the
offset is in bounds).  The relocation `target_offset` is added to the
mapping's device address without any check against the mapping's
extent. -/
def submit_write_reloc (bo : GatherBo) (buf : SubmitBuf) (mapping : Mapping) :
    Except Err GatherBo :=
  let iova := (mapping.iova + buf.reloc.target_offset) % 2 ^ 64
  let written_ptr := (iova >>> buf.reloc.shift) % 2 ^ 32
  let written_ptr :=
    if buf.flags &&& DRM_TEGRA_SUBMIT_BUF_RELOC_BLOCKLINEAR ≠ 0 then
      (written_ptr ||| 2 ^ 39) % 2 ^ 32
    else
      written_ptr
  if bo.gather_data.length ≤ buf.reloc.gather_offset_words then
    .error .EINVAL
  else
    .ok { gather_data := bo.gather_data.set buf.reloc.gather_offset_words written_ptr }

/-- The `drop_refs` unwind of `submit_process_bufs`: put the mapping
references acquired so far, most recent first. -/
def dropRefsTrace (acc : List UsedMapping) : List Ev :=
  acc.reverse.map (fun um => Ev.mapPut um.mapping_id)

/-- The per-buffer loop of `submit_process_bufs`: validate flag bits and
reserved words, look the mapping up in the context registry (taking a
reference), patch the relocation, and accumulate the used-mapping
entry.  Any failure drops the references acquired so far. -/
def processBufsLoop (ctx : List (Nat × Mapping)) (bo : GatherBo)
    (acc : List UsedMapping) (bufs : List SubmitBuf) :
    List Ev × Except Err (GatherBo × List UsedMapping) :=
  match bufs with
  | [] => ([], .ok (bo, acc))
  | buf :: rest =>
    if buf.flags ||| BUF_FLAGS_MASK ≠ BUF_FLAGS_MASK then
      (dropRefsTrace acc, .error .EINVAL)
    else if buf.reserved0 ≠ 0 ∨ buf.reserved1 ≠ 0 then
      (dropRefsTrace acc, .error .EINVAL)
    else
      match xa_load ctx buf.mapping_id with
      | none => (dropRefsTrace acc, .error .EINVAL)
      | some mapping =>
        match submit_write_reloc bo buf mapping with
        | .error e =>
          ([Ev.mapGet buf.mapping_id, Ev.mapPut buf.mapping_id] ++ dropRefsTrace acc,
            .error e)
        | .ok bo' =>
          let um : UsedMapping :=
            { mapping_id := buf.mapping_id, mapping := mapping, flags := buf.flags }
          let step := processBufsLoop ctx bo' (acc ++ [um]) rest
          (Ev.mapGet buf.mapping_id :: step.1, step.2)

/-- Whether any used mapping declares an implicit read/write dependency
(the loop sets `*need_implicit_fences` when it sees such flags). -/
def needImplicit (used : List UsedMapping) : Bool :=
  used.any (fun um =>
    um.flags &&& (DRM_TEGRA_SUBMIT_BUF_RESV_READ ||| DRM_TEGRA_SUBMIT_BUF_RESV_WRITE) ≠ 0)

/-- `submit_process_bufs`: copy the buffer descriptors from the caller,
allocate the used-mappings array, then run the per-buffer loop. -/
def submit_process_bufs (ctx : List (Nat × Mapping)) (bo : GatherBo)
    (args : SubmitArgs) (o : SubmitOracle) :
    List Ev × Except Err (GatherBo × List UsedMapping × Bool) :=
  match o.bufsCopyRes with
  | some e => ([], .error e)
  | none =>
    if !o.mappingsAllocOk then
      ([], .error .ENOMEM)
    else
      match processBufsLoop ctx bo [] args.bufs with
      | (t, .error e) => (t, .error e)
      | (t, .ok (bo', used)) => (t, .ok (bo', used, needImplicit used))

/-- `submit_get_syncpt`: only one target syncpoint is supported (the
second increment descriptor must be empty); unknown flags and nonzero
reserved words are rejected; the syncpoint file descriptor is then
resolved.  Returns the syncpoint id and the requested increment count. -/
def submit_get_syncpt (args : SubmitArgs) (o : SubmitOracle) :
    Except Err (Nat × Nat) :=
  if args.incr1_num_incrs ≠ 0 then
    .error .EINVAL
  else if args.incr0.flags ||| DRM_TEGRA_SUBMIT_SYNCPT_INCR_CREATE_SYNC_FILE ≠
          DRM_TEGRA_SUBMIT_SYNCPT_INCR_CREATE_SYNC_FILE ∨
        args.incr0.reserved0 ≠ 0 ∨ args.incr0.reserved1 ≠ 0 ∨
        args.incr0.reserved2 ≠ 0 then
    .error .EINVAL
  else
    match o.syncptFdRes with
    | .error e => .error e
    | .ok spid => .ok (spid, args.incr0.num_incrs)

/-- An operation pushed onto a job: a syncpoint wait precondition or a
gather (word count and byte offset into the gather storage). -/
inductive JobOp where
  | wait (id : Nat) (threshold : Nat)
  | gather (words : Nat) (offsetBytes : Nat)
  deriving Repr, DecidableEq

/-- The host1x job as assembled by the submission path: its ordered
wait/gather operations, target syncpoint, reserved increment count,
reference count, and whether the DRM release callback is attached. -/
structure Job where
  ops : List JobOp
  syncptId : Nat
  syncpt_incrs : Nat
  refcount : Nat
  releaseAttached : Bool
  deriving Repr, DecidableEq

/-- The command loop of `submit_create_job`: gather commands must have
zero reserved words and at most 16383 words, and are appended at the
running word offset (which must stay within the gather storage);
syncpoint waits with zero reserved words are appended as native wait
operations, their syncpoint id unchecked; sync-file waits resolve the
descriptor and block on the fence CPU-side, interruptibly, appending no
operation; any other command type is invalid. -/
def createJobLoop (bo : GatherBo) (o : SubmitOracle) (job : Job)
    (gather_offset : Nat) (cmds : List SubmitCmd) :
    List Ev × Except Err (Job × Nat) :=
  match cmds with
  | [] => ([], .ok (job, gather_offset))
  | cmd :: rest =>
    match cmd with
    | .gatherUptr words r0 r1 r2 =>
      if r0 ≠ 0 ∨ r1 ≠ 0 ∨ r2 ≠ 0 then
        ([], .error .EINVAL)
      else if 16383 < words then
        ([], .error .EINVAL)
      else
        let job' := { job with ops := job.ops ++ [JobOp.gather words (gather_offset * 4)] }
        let go' := gather_offset + words
        if bo.gather_data.length < go' then
          ([], .error .EINVAL)
        else
          createJobLoop bo o job' go' rest
    | .waitSyncpt id threshold r0 r1 =>
      if r0 ≠ 0 ∨ r1 ≠ 0 then
        ([], .error .EINVAL)
      else
        createJobLoop bo o
          { job with ops := job.ops ++ [JobOp.wait id threshold] } gather_offset rest
    | .waitSyncFile fd r0 r1 r2 =>
      if r0 ≠ 0 ∨ r1 ≠ 0 ∨ r2 ≠ 0 then
        ([], .error .EINVAL)
      else
        match o.syncFileFence fd with
        | none => ([], .error .EINVAL)
        | some f =>
          match o.fenceWaitRes f with
          | some e => ([Ev.cpuWait f true], .error e)
          | none =>
            let step := createJobLoop bo o job gather_offset rest
            (Ev.cpuWait f true :: step.1, step.2)
    | .unknown _ => ([], .error .EINVAL)

/-- `submit_create_job`: copy the command array, allocate the job,
resolve the target syncpoint, push the implicit-fence pre-wait when
needed (threshold `host1x_syncpt_incr_max(syncpt, 1) - 1` over the
current syncpoint max), run the command loop, and require at least one
gather word.  Failures put the job (its release callback is not yet
attached, so the put only frees the job storage). -/
def submit_create_job (bo : GatherBo) (args : SubmitArgs) (o : SubmitOracle)
    (needImplicitFences : Bool) (syncptMax : Nat) :
    List Ev × Except Err Job :=
  match o.cmdsCopyRes with
  | some e => ([], .error e)
  | none =>
    if !o.jobAllocOk then
      ([], .error .ENOMEM)
    else
      match submit_get_syncpt args o with
      | .error e => ([Ev.jobPut, Ev.jobFreed], .error e)
      | .ok (spid, nincr) =>
        let job0 : Job :=
          { ops := [], syncptId := spid, syncpt_incrs := nincr,
            refcount := 1, releaseAttached := false }
        let job1 :=
          if needImplicitFences then
            { job0 with ops := [JobOp.wait spid (syncptMax + 1 - 1)] }
          else
            job0
        match createJobLoop bo o job1 0 args.cmds with
        | (t, .error e) => (t ++ [Ev.jobPut, Ev.jobFreed], .error e)
        | (t, .ok (job, go)) =>
          if go = 0 then
            (t ++ [Ev.jobPut, Ev.jobFreed], .error .EINVAL)
          else
            (t, .ok job)

/-- `release_job`: drop the reference of every used mapping, in index
order, free the job data, and drop the engine's runtime-power
reference. -/
def release_job_trace (used : List UsedMapping) : List Ev :=
  used.map (fun um => Ev.mapPut um.mapping_id) ++ [Ev.pmPut]

/-- Modelled from the spec: `host1x_job_put` (drivers/gpu/host1x/job.c
is outside the selected sources) drops one job reference; when the
count reaches zero the job is freed and, per the spec's job lifecycle,
the owner-supplied release callback runs exactly once if attached —
here `release_job`. -/
def host1x_job_put_trace (refcount : Nat) (releaseAttached : Bool)
    (used : List UsedMapping) : List Ev :=
  if refcount = 1 then
    [Ev.jobPut, Ev.jobFreed] ++ (if releaseAttached then release_job_trace used else [])
  else
    [Ev.jobPut]

/-- The `free_job_data` unwind label: when `job_data` is still owned by
the ioctl (`some`), drop every used-mapping reference in index order
and free the arrays; once ownership moved into the job (`none`), do
nothing. -/
def free_job_data_trace (jobData : Option (List UsedMapping)) : List Ev :=
  match jobData with
  | none => []
  | some used => used.map (fun um => Ev.mapPut um.mapping_id)

/-- `tegra_drm_ioctl_channel_submit`: the phased submission protocol
with its goto-label unwind chain.  Returns the event trace and the
ioctl status.  The channel context registry is read-only here and the
channel pool is untouched (no `chanRequest`/`chanPut` event is ever
emitted).  `submit_handle_resv` is abstracted by its outcome
(`o.resvRes`); its locking protocol is embedded in detail separately
below.  Modelled from the spec: on successful `host1x_job_submit`
(drivers/gpu/host1x/job.c is outside the selected sources) the channel
holds one job reference until retirement, so the ioctl's final put does
not free the job on the success path. -/
def tegra_drm_ioctl_channel_submit (ctx : List (Nat × Mapping))
    (args : SubmitArgs) (o : SubmitOracle) (syncptMax : Nat) :
    List Ev × Except Err Unit :=
  if args.reserved0 ≠ 0 ∨ args.reserved1 ≠ 0 then
    ([], .error .EINVAL)
  else if !o.ctxFound then
    ([], .error .EINVAL)
  else
    match submit_copy_gather_data args o with
    | .error e => ([Ev.ctxUnlock], .error e)
    | .ok bo =>
      if !o.jobDataAllocOk then
        ([Ev.boPut, Ev.ctxUnlock], .error .ENOMEM)
      else
        match submit_process_bufs ctx bo args o with
        | (tbufs, .error e) =>
          (tbufs ++ free_job_data_trace none ++ [Ev.boPut, Ev.ctxUnlock], .error e)
        | (tbufs, .ok (bo', used, needImpl)) =>
          match submit_create_job bo' args o needImpl syncptMax with
          | (tjob, .error e) =>
            (tbufs ++ tjob ++ free_job_data_trace (some used) ++
              [Ev.boPut, Ev.ctxUnlock], .error e)
          | (tjob, .ok _job) =>
            match o.pinRes with
            | some e =>
              (tbufs ++ tjob ++ host1x_job_put_trace 1 false used ++
                free_job_data_trace (some used) ++ [Ev.boPut, Ev.ctxUnlock], .error e)
            | none =>
              match o.pmRes with
              | some e =>
                -- pm_runtime_get_sync raises the usage count even on failure
                (tbufs ++ tjob ++ [Ev.jobPin, Ev.pmGet, Ev.pmPut, Ev.jobUnpin] ++
                  host1x_job_put_trace 1 false used ++
                  free_job_data_trace (some used) ++ [Ev.boPut, Ev.ctxUnlock], .error e)
              | none =>
                -- job->user_data and job->release are attached; job_data = NULL
                if needImpl && (o.resvRes.isSome) then
                  (tbufs ++ tjob ++ [Ev.jobPin, Ev.pmGet, Ev.pmPut, Ev.jobUnpin] ++
                    host1x_job_put_trace 1 true used ++
                    free_job_data_trace none ++ [Ev.boPut, Ev.ctxUnlock],
                    .error (o.resvRes.getD .EINVAL))
                else
                  match o.submitRes with
                  | some e =>
                    (tbufs ++ tjob ++ [Ev.jobPin, Ev.pmGet] ++
                      (if needImpl then [Ev.resvUnlockAll] else []) ++
                      [Ev.pmPut, Ev.jobUnpin] ++
                      host1x_job_put_trace 1 true used ++
                      free_job_data_trace none ++ [Ev.boPut, Ev.ctxUnlock], .error e)
                  | none =>
                    (tbufs ++ tjob ++ [Ev.jobPin, Ev.pmGet, Ev.hwSubmit] ++
                      (if needImpl then
                        [Ev.resvUnlockAll, Ev.implicitFenceWait] ++
                          (if o.implicitWaitOk then [Ev.syncptIncr] else [])
                      else []) ++
                      host1x_job_put_trace 2 true used ++
                      free_job_data_trace none ++ [Ev.boPut, Ev.ctxUnlock],
                      match o.postfenceRes with
                      | some e => .error e
                      | none => .ok ())

/-! ### The reservation-locking protocol of `submit_handle_resv`

The protocol is embedded with its array subscripts made observable: C
indexes the `used_mappings` array with `int` values, so subscripts are
`Int` here, and every read of `mappings[k]` is recorded.  `contended`
starts at `-1`. -/

/-- Result of one interruptible `dma_resv_lock` attempt. -/
inductive LockRes where
  | ok
  | eintr
  | edeadlk
  deriving Repr, DecidableEq

/-- Observable protocol actions: every subscript used to read the
used-mappings array, every slot whose buffer lock was attempted (named
by the subscript the buffer was read from), and every unlock. -/
structure ResvTrace where
  accesses : List Int
  lockAttempts : List Int
  unlocks : List Int
  deriving Repr, DecidableEq

/-- Outcome of one pass of the for loop in `submit_handle_resv`. -/
inductive ForRes where
  | done
  | fail (e : Err)
  | retry (newContended : Int)
  deriving Repr, DecidableEq

/-- The for loop of `submit_handle_resv`: at each `i` the buffer is read
from `mappings[contended]` (the source subscripts with `contended`, not
`i`), the iteration is skipped when `i == contended`, and otherwise that
buffer's reservation lock is attempted.  On failure the locks of
`mappings[j]` for `j < i` are released, plus `mappings[contended]` when
`contended >= i`; `-EDEADLK` restarts the protocol with the contended
index, any other error is returned.  `oracle` gives the result of the
n-th lock attempt. -/
def resvForLoop (n : Nat) (oracle : Nat → LockRes) (cnt : Nat)
    (contended : Int) (i : Nat) (tr : ResvTrace) : ResvTrace × Nat × ForRes :=
  if i < n then
    let tr1 := { tr with accesses := tr.accesses ++ [contended] }
    if (i : Int) = contended then
      resvForLoop n oracle cnt contended (i + 1) tr1
    else
      let tr2 := { tr1 with lockAttempts := tr1.lockAttempts ++ [contended] }
      match oracle cnt with
      | .ok => resvForLoop n oracle (cnt + 1) contended (i + 1) tr2
      | .eintr =>
        let tr3 := { tr2 with
          unlocks := tr2.unlocks ++ (List.range i).map Int.ofNat ++
            (if contended ≠ -1 ∧ (i : Int) ≤ contended then [contended] else []) }
        (tr3, cnt + 1, .fail .EINTR)
      | .edeadlk =>
        let tr3 := { tr2 with
          unlocks := tr2.unlocks ++ (List.range i).map Int.ofNat ++
            (if contended ≠ -1 ∧ (i : Int) ≤ contended then [contended] else []) }
        (tr3, cnt + 1, .retry (Int.ofNat i))
  else
    (tr, cnt, .done)
termination_by n - i

/-- The fence-slot bookkeeping loop that runs once all locks are held:
for each used mapping (indexed correctly by `i` in this phase) the
write/read dependency is recorded on the buffer's reservation;
`bookkeep i` gives the outcome of the fallible reservation calls for
mapping `i`, and a failure unlocks all reservations
(`submit_unlock_resv`). -/
def resvFencesLoop (n : Nat) (bookkeep : Nat → Option Err) (i : Nat)
    (tr : ResvTrace) : ResvTrace × Option Err :=
  if i < n then
    let tr1 := { tr with accesses := tr.accesses ++ [(i : Int)] }
    match bookkeep i with
    | some e =>
      ({ tr1 with unlocks := tr1.unlocks ++ (List.range n).map Int.ofNat }, some e)
    | none => resvFencesLoop n bookkeep (i + 1) tr1
  else
    (tr, none)
termination_by n - i

/-- The retry loop of `submit_handle_resv`: when a pass lost a
`-EDEADLK` race, the contended buffer (read through `mappings[contended]`)
is first locked in the uninterruptible-progress slow path, then the full
ordered pass is retried.  `fuel` bounds the number of retries so the
embedding is total; the settled properties only use runs whose fuel is
not exhausted. -/
def resvRetryLoop (n : Nat) (oracle : Nat → LockRes)
    (bookkeep : Nat → Option Err) :
    Nat → Nat → Int → ResvTrace → ResvTrace × Except Err Unit
  | 0, _, _, tr => (tr, .error .EDEADLK)
  | fuel + 1, cnt, contended, tr =>
    let slow :
        ResvTrace × Nat × Bool :=
      if contended ≠ -1 then
        let tr1 := { tr with
          accesses := tr.accesses ++ [contended],
          lockAttempts := tr.lockAttempts ++ [contended] }
        match oracle cnt with
        | .ok => (tr1, cnt + 1, true)
        | _ => (tr1, cnt + 1, false)
      else
        (tr, cnt, true)
    if slow.2.2 then
      match resvForLoop n oracle slow.2.1 contended 0 slow.1 with
      | (tr', _, .done) =>
        match resvFencesLoop n bookkeep 0 tr' with
        | (tr'', some e) => (tr'', .error e)
        | (tr'', none) => (tr'', .ok ())
      | (tr', _, .fail e) => (tr', .error e)
      | (tr', cnt', .retry c) => resvRetryLoop n oracle bookkeep fuel cnt' c tr'
    else
      (slow.1, .error .EINTR)

/-- `submit_handle_resv` for a job with `n` used mappings: initialize
the acquire context and run the retry protocol starting from
`contended = -1`. -/
def submit_handle_resv_sim (n : Nat) (oracle : Nat → LockRes)
    (bookkeep : Nat → Option Err) (fuel : Nat) : ResvTrace × Except Err Unit :=
  resvRetryLoop n oracle bookkeep fuel 0 (-1) ⟨[], [], []⟩

/-! ### Trace and validity predicates used by the stated properties -/

/-- Whether an event is a CPU-side fence wait from a `WAIT_SYNC_FILE`
command. -/
def evIsCpuWait : Ev → Bool
  | .cpuWait _ _ => true
  | _ => false

/-- Whether an event is a non-interruptible CPU-side sync-file wait. -/
def evIsNonIntrCpuWait : Ev → Bool
  | .cpuWait _ intr => !intr
  | _ => false

/-- Whether an event pins the job for hardware access or submits it to
the channel. -/
def evIsPinOrSubmit : Ev → Bool
  | .jobPin => true
  | .hwSubmit => true
  | _ => false

/-- `true` when some CPU-side sync-file wait occurs after the first
pin-or-submit event of the trace. -/
def cpuWaitAfter : List Ev → Bool
  | [] => false
  | e :: rest =>
    if evIsPinOrSubmit e then rest.any evIsCpuWait else cpuWaitAfter rest

/-- Whether an event is a mapping reference get/put. -/
def evIsMapEv : Ev → Bool
  | .mapGet _ => true
  | .mapPut _ => true
  | _ => false

/-- Whether an event can be emitted by `submit_create_job`: an
interruptible CPU-side sync-file wait, or the put/free of the job on
its failure path. -/
def evIsCreateEv : Ev → Bool
  | .cpuWait _ intr => intr
  | .jobPut => true
  | .jobFreed => true
  | _ => false

/-- A command the validation loop of `submit_create_job` rejects:
nonzero reserved words, a gather above the 16383-word ceiling, or an
unrecognized type. -/
def cmdBad : SubmitCmd → Prop
  | .gatherUptr words r0 r1 r2 => r0 ≠ 0 ∨ r1 ≠ 0 ∨ r2 ≠ 0 ∨ 16383 < words
  | .waitSyncpt _ _ r0 r1 => r0 ≠ 0 ∨ r1 ≠ 0
  | .waitSyncFile _ r0 r1 r2 => r0 ≠ 0 ∨ r1 ≠ 0 ∨ r2 ≠ 0
  | .unknown _ => True

instance (cmd : SubmitCmd) : Decidable (cmdBad cmd) := by
  cases cmd <;> simp only [cmdBad] <;> infer_instance

/-- Whether a command is a gather. -/
def isGatherCmd : SubmitCmd → Bool
  | .gatherUptr _ _ _ _ => true
  | _ => false

/-- Whether a command is a hardware syncpoint wait. -/
def isWaitSyncptCmd : SubmitCmd → Bool
  | .waitSyncpt _ _ _ _ => true
  | _ => false

/-- Whether a job operation is a hardware wait instruction. -/
def isWaitOp : JobOp → Bool
  | .wait _ _ => true
  | _ => false

/-- The rejection conditions of the submission claim: some command is
invalid, more than one target syncpoint increment is requested, or no
gather command is present. -/
def submitBadCmds (args : SubmitArgs) : Prop :=
  (∃ cmd ∈ args.cmds, cmdBad cmd) ∨
  args.incr1_num_incrs ≠ 0 ∨
  (∀ cmd ∈ args.cmds, isGatherCmd cmd = false)

/-- An oracle under which every allocation, user copy, descriptor
resolution and fence wait succeeds, isolating the ioctl's own input
validation. -/
def goodOracle (o : SubmitOracle) : Prop :=
  o.ctxFound = true ∧ o.copyGatherRes = none ∧ o.jobDataAllocOk = true ∧
  o.bufsCopyRes = none ∧ o.mappingsAllocOk = true ∧ o.cmdsCopyRes = none ∧
  o.jobAllocOk = true ∧ (∃ sp, o.syncptFdRes = .ok sp) ∧
  (∀ fd, (o.syncFileFence fd).isSome = true) ∧ (∀ f, o.fenceWaitRes f = none)

/-- A buffer descriptor the per-buffer loop accepts: permitted flag
bits, zero reserved words, a registered mapping id and an in-bounds
relocation offset (`len` is the gather word count, invariant under
relocation patching). -/
def bufOk (ctx : List (Nat × Mapping)) (len : Nat) (b : SubmitBuf) : Prop :=
  b.flags ||| BUF_FLAGS_MASK = BUF_FLAGS_MASK ∧
  b.reserved0 = 0 ∧ b.reserved1 = 0 ∧
  (∃ m, xa_load ctx b.mapping_id = some m) ∧
  b.reloc.gather_offset_words < len

/-- A command the loop runs to completion under oracle `o`: not
rejected, and for a sync-file wait the descriptor resolves and the wait
succeeds. -/
def cmdRuns (o : SubmitOracle) : SubmitCmd → Prop
  | .waitSyncFile fd r0 r1 r2 =>
    ¬cmdBad (.waitSyncFile fd r0 r1 r2) ∧
      ∃ f, o.syncFileFence fd = some f ∧ o.fenceWaitRes f = none
  | cmd => ¬cmdBad cmd

/-- Number of used-mapping entries referring to registry id `id`. -/
def countIdIn (acc : List UsedMapping) (id : Nat) : Nat :=
  (acc.filter (fun um => um.mapping_id == id)).length

/-! ### Concrete inputs used by the settled properties -/

/-- A registry with one mapping, id 1. -/
def exCtx : List (Nat × Mapping) := [(1, { iova := 4096 })]

/-- A plain buffer descriptor using mapping 1 with no dependency flags. -/
def exBuf : SubmitBuf :=
  { mapping_id := 1, flags := 0, reserved0 := 0, reserved1 := 0,
    reloc := { target_offset := 0, gather_offset_words := 0, shift := 0 } }

/-- A well-formed single-increment descriptor. -/
def exIncr : SubmitIncr :=
  { syncpt_fd := 5, num_incrs := 1, flags := 0,
    reserved0 := 0, reserved1 := 0, reserved2 := 0 }

/-- A minimal well-formed submission: one buffer, one 4-word gather. -/
def exArgs : SubmitArgs :=
  { reserved0 := 0, reserved1 := 0, bufs := [exBuf],
    cmds := [.gatherUptr 4 0 0 0], gather_data := [0, 0, 0, 0],
    incr0 := exIncr, incr1_num_incrs := 0 }

/-- `exArgs` with a leading syncpoint-wait command. -/
def exArgsWithWait (id threshold : Nat) : SubmitArgs :=
  { exArgs with cmds := [.waitSyncpt id threshold 0 0, .gatherUptr 4 0 0 0] }

/-- An oracle on which every external call succeeds. -/
def exOracleOk : SubmitOracle :=
  { ctxFound := true, copyGatherRes := none, jobDataAllocOk := true,
    bufsCopyRes := none, mappingsAllocOk := true, cmdsCopyRes := none,
    jobAllocOk := true, syncptFdRes := .ok 7,
    syncFileFence := fun _ => some 0, fenceWaitRes := fun _ => none,
    pinRes := none, pmRes := none, resvRes := none, submitRes := none,
    postfenceRes := none, implicitWaitOk := true }

/-- `exOracleOk` with `host1x_job_submit` failing. -/
def exOracleSubmitFail : SubmitOracle :=
  { exOracleOk with submitRes := some Err.EIO }

end Submit

/-! ## Settled properties -/

open Host1x Fence Submit

/-- C3: a fence created from a `(syncpoint, threshold)` pair via the
Fence Bridge's create operation, when passed to extract, yields back
exactly the same pair and reports success; a fence whose timeline was
not created by the host1x Fence Bridge extracts to nothing. -/
theorem C3_fence_roundtrip :
    (∀ (sp : Syncpt) (threshold : Nat) (o : FenceAllocOracle) (pt : SyncPtObj),
      sp.timeline = host1x_sync_timeline_create sp.id →
      host1x_sync_pt_create sp threshold o = some pt →
      host1x_sync_pt_extract pt = some (sp.id, threshold)) ∧
    (∀ pt : SyncPtObj, pt.parent.opsIsHost1x = false →
      host1x_sync_pt_extract pt = none) := by
  constructor
  · intro sp threshold o pt htl hc
    unfold host1x_sync_pt_create at hc
    split at hc
    · exact absurd hc (by simp)
    · split at hc
      · exact absurd hc (by simp)
      · split at hc
        · exact absurd hc (by simp)
        · cases hc
          simp [host1x_sync_pt_extract, htl, host1x_sync_timeline_create]
  · intro pt h
    simp [host1x_sync_pt_extract, h]

/-- Witness for C3 at syncpoint 3, threshold 7, and a foreign timeline. -/
theorem C3_fence_roundtrip_witness :
    host1x_sync_pt_extract ⟨host1x_sync_timeline_create 3, 7⟩ = some (3, 7) ∧
    host1x_sync_pt_extract ⟨⟨false, 3⟩, 7⟩ = none :=
  ⟨C3_fence_roundtrip.1 ⟨3, host1x_sync_timeline_create 3⟩ 7 ⟨true, true, true⟩ _ rfl rfl,
   C3_fence_roundtrip.2 ⟨⟨false, 3⟩, 7⟩ rfl⟩

/-- C9: relocation patching writes only inside the kernel-owned gather
copy — an offset not strictly below the gather length fails with
`-EINVAL`, an in-bounds offset patches exactly that word — while the
relocation `target_offset` is accepted for every value. -/
theorem C9_write_reloc_bounds (bo : GatherBo) (buf : SubmitBuf) (m : Mapping) :
    (bo.gather_data.length ≤ buf.reloc.gather_offset_words →
      submit_write_reloc bo buf m = .error .EINVAL) ∧
    (buf.reloc.gather_offset_words < bo.gather_data.length →
      ∃ v, submit_write_reloc bo buf m =
        .ok ⟨bo.gather_data.set buf.reloc.gather_offset_words v⟩) ∧
    (∀ t : Nat, buf.reloc.gather_offset_words < bo.gather_data.length →
      ∃ bo', submit_write_reloc bo
        { buf with reloc := { buf.reloc with target_offset := t } } m = .ok bo') := by
  refine ⟨fun h => ?_, fun h => ?_, fun t h => ?_⟩
  · simp only [submit_write_reloc]
    rw [if_pos h]
  · simp only [submit_write_reloc]
    rw [if_neg (by omega)]
    exact ⟨_, rfl⟩
  · simp only [submit_write_reloc]
    rw [if_neg (by simp; omega)]
    exact ⟨_, rfl⟩

/-- Witness for C9: a 4-word gather rejects offset 4, patches offset 0,
and accepts an arbitrarily large `target_offset`. -/
theorem C9_write_reloc_bounds_witness :
    submit_write_reloc ⟨[0, 0, 0, 0]⟩
      { exBuf with reloc := { exBuf.reloc with gather_offset_words := 4 } } ⟨4096⟩ =
      .error .EINVAL ∧
    (submit_write_reloc ⟨[0, 0, 0, 0]⟩ exBuf ⟨4096⟩).isOk = true ∧
    (submit_write_reloc ⟨[0, 0, 0, 0]⟩
      { exBuf with reloc := { exBuf.reloc with target_offset := 999999999 } }
      ⟨4096⟩).isOk = true :=
  ⟨(C9_write_reloc_bounds ⟨[0, 0, 0, 0]⟩
      { exBuf with reloc := { exBuf.reloc with gather_offset_words := 4 } } ⟨4096⟩).1
      (by decide),
   by
    obtain ⟨v, hv⟩ := (C9_write_reloc_bounds ⟨[0, 0, 0, 0]⟩ exBuf ⟨4096⟩).2.1
      (by decide)
    rw [hv]
    rfl,
   by
    obtain ⟨bo2, hb⟩ := (C9_write_reloc_bounds ⟨[0, 0, 0, 0]⟩ exBuf ⟨4096⟩).2.2
      999999999 (by decide)
    rw [hb]
    rfl⟩

/-- C1: evaluation of the submission ioctl at a failing input (valid
one-buffer, one-gather submission on which `host1x_job_submit` fails,
after `job->release` has been attached).  The unwind balances the
mapping reference and the pin, but releases the runtime-power
reference twice for the single acquisition — once at the
`put_pm_runtime` label and once again inside `release_job` when the
final job put runs the attached release callback. -/
theorem C1_pm_double_release_eval :
    ((tegra_drm_ioctl_channel_submit exCtx exArgs exOracleSubmitFail 0).1.count .pmGet = 1) ∧
    ((tegra_drm_ioctl_channel_submit exCtx exArgs exOracleSubmitFail 0).1.count .pmPut = 2) ∧
    ((tegra_drm_ioctl_channel_submit exCtx exArgs exOracleSubmitFail 0).1.count (.mapGet 1) = 1) ∧
    ((tegra_drm_ioctl_channel_submit exCtx exArgs exOracleSubmitFail 0).1.count (.mapPut 1) = 1) ∧
    ((tegra_drm_ioctl_channel_submit exCtx exArgs exOracleSubmitFail 0).1.count .jobPin = 1) ∧
    ((tegra_drm_ioctl_channel_submit exCtx exArgs exOracleSubmitFail 0).1.count .jobUnpin = 1) ∧
    ((tegra_drm_ioctl_channel_submit exCtx exArgs exOracleSubmitFail 0).2 = .error Err.EIO) :=
  ⟨rfl, rfl, rfl, rfl, rfl, rfl, rfl⟩

/-- C2: evaluation of the reservation-locking protocol for a job with
one used mapping and no contention.  The first pass reads the
used-mappings array at subscript `-1` (the initial `contended` value)
and attempts the lock of the buffer found there instead of the used
buffer at index 0, which is never locked. -/
theorem C2_resv_lock_out_of_bounds_eval :
    ((submit_handle_resv_sim 1 (fun _ => .ok) (fun _ => none) 2).1.accesses = [-1, 0]) ∧
    ((submit_handle_resv_sim 1 (fun _ => .ok) (fun _ => none) 2).1.lockAttempts = [-1]) ∧
    ((submit_handle_resv_sim 1 (fun _ => .ok) (fun _ => none) 2).2 = .ok ()) := by
  simp [submit_handle_resv_sim, resvRetryLoop, resvForLoop, resvFencesLoop]

/-! ### Channel-pool lemmas -/

theorem set_getD_self (l : List Bool) (i : Nat) (b : Bool)
    (h : l.getD i b = b) : l.set i b = l := by
  induction l generalizing i with
  | nil => rfl
  | cons a t ih =>
    cases i with
    | zero => simp_all [List.getD]
    | succ j => simp_all [List.getD]

theorem acquire_ok_spec {st : ChannelList} {wait intr : Bool}
    {st1 : ChannelList} {idx : Nat}
    (h : acquire_unused_channel st wait intr = .ok st1 idx) :
    st.sema ≠ 0 ∧ idx = find_first_zero_bit st.allocated ∧
    idx < st.numChannels ∧
    st1 = { st with sema := st.sema - 1,
                    allocated := st.allocated.set idx true } := by
  simp only [acquire_unused_channel] at h
  split at h
  · nomatch h
  · split at h
    · split at h <;> nomatch h
    · split at h
      · nomatch h
      · cases h
        simp_all

theorem request_ok_spec {st : ChannelList} {wait intr : Bool} {o : InitOracle}
    {st' : ChannelList} {ch : Channel}
    (h : host1x_channel_request st wait intr o = .ok st' ch) :
    ∃ st1 idx, acquire_unused_channel st wait intr = .ok st1 idx ∧
      ch = { id := idx, refcount := 1, pbMapped := true } ∧
      ((st' = st1 ∧ st1.pbRetained.getD idx false = true) ∨
        st' = { st1 with pbRetained := st1.pbRetained.set idx true }) := by
  unfold host1x_channel_request at h
  split at h
  · nomatch h
  · nomatch h
  · rename_i s idx heq
    split at h
    · nomatch h
    · split at h
      · rename_i hpb
        cases h
        exact ⟨_, _, heq, rfl, .inl ⟨rfl, hpb⟩⟩
      · split at h
        · cases h
          exact ⟨_, _, heq, rfl, .inr rfl⟩
        · nomatch h

theorem request_err_spec {st : ChannelList} {wait intr : Bool} {o : InitOracle}
    {st' : ChannelList} {e : ChanErr}
    (h : host1x_channel_request st wait intr o = .err st' e) :
    acquire_unused_channel st wait intr = .err st' e ∨
    (∃ st1 idx, acquire_unused_channel st wait intr = .ok st1 idx ∧
      st'.allocated = st1.allocated.set idx false ∧ st'.sema = st1.sema ∧
      st'.numChannels = st1.numChannels ∧ e = ChanErr.EIO) := by
  unfold host1x_channel_request at h
  split at h
  · nomatch h
  · rename_i s e0 heq
    cases h
    exact .inl heq
  · rename_i s idx heq
    split at h
    · cases h
      exact .inr ⟨_, _, heq, rfl, rfl, rfl, rfl⟩
    · split at h
      · nomatch h
      · split at h
        · nomatch h
        · cases h
          exact .inr ⟨_, _, heq, rfl, rfl, rfl, rfl⟩

theorem acquire_err_spec {st : ChannelList} {wait intr : Bool}
    {st' : ChannelList} {e : ChanErr}
    (h : acquire_unused_channel st wait intr = .err st' e) :
    st' = st ∨
    (st'.allocated = st.allocated ∧ st'.sema = st.sema - 1 ∧
      st'.numChannels = st.numChannels ∧ st.sema ≠ 0) := by
  simp only [acquire_unused_channel] at h
  split at h
  · cases h; exact .inl rfl
  · split at h
    · split at h
      · nomatch h
      · cases h; exact .inl rfl
    · split at h
      · cases h
        exact .inr ⟨rfl, rfl, rfl, by assumption⟩
      · nomatch h

theorem findIdx_zero_bit_false {l : List Bool}
    (h : find_first_zero_bit l < l.length) :
    l[find_first_zero_bit l] = false := by
  have := List.findIdx_getElem (w := h)
  simpa using this

theorem poolStep_inv {n : Nat} {st st' : ChannelList}
    (hinv : PoolInv n st) (hstep : PoolStep st st') : PoolInv n st' := by
  obtain ⟨hn, hlen, hsum⟩ := hinv
  cases hstep with
  | requestOk wait intr o st' ch h =>
    obtain ⟨st1, idx, hacq, hch, hrest⟩ := request_ok_spec h
    obtain ⟨hsema, hidx, hlt, hst1⟩ := acquire_ok_spec hacq
    have hidxlen : idx < st.allocated.length := by omega
    have hfalse : st.allocated[idx] = false := by
      subst hidx; exact findIdx_zero_bit_false hidxlen
    have hcount : (st.allocated.set idx true).count true =
        st.allocated.count true + 1 := by
      rw [List.count_set _ _ _ _ hidxlen, hfalse]
      simp
    have halloc' : st'.allocated = st.allocated.set idx true := by
      rcases hrest with ⟨h1, _⟩ | h1 <;> rw [h1, hst1]
    have hsema' : st'.sema = st.sema - 1 := by
      rcases hrest with ⟨h1, _⟩ | h1 <;> rw [h1, hst1]
    have hnum' : st'.numChannels = st.numChannels := by
      rcases hrest with ⟨h1, _⟩ | h1 <;> rw [h1, hst1]
    refine ⟨by omega, ?_, ?_⟩
    · rw [halloc', List.length_set]; omega
    · simp only [countAlloc] at hsum ⊢
      rw [halloc', hcount, hsema']
      omega
  | requestErr wait intr o st' e h =>
    rcases request_err_spec h with herr |
      ⟨st1, idx, hacq, halloc', hsema', hnum', heio⟩
    · rcases acquire_err_spec herr with h1 | ⟨h1, h2, h3, h4⟩
      · subst h1; exact ⟨hn, hlen, hsum⟩
      · refine ⟨by omega, by rw [h1]; omega, ?_⟩
        simp only [countAlloc] at hsum ⊢
        rw [h1, h2]
        omega
    · obtain ⟨hsema, hidx, hlt, hst1⟩ := acquire_ok_spec hacq
      have hidxlen : idx < st.allocated.length := by omega
      have hfalse : st.allocated[idx] = false := by
        subst hidx; exact findIdx_zero_bit_false hidxlen
      have halloc2 : st'.allocated = st.allocated := by
        rw [halloc', hst1]
        simp only [List.set_set]
        exact set_getD_self _ _ _ (by
          rw [List.getD_eq_getElem?_getD, List.getElem?_eq_getElem hidxlen, hfalse]
          rfl)
      have hsema2 : st'.sema = st.sema - 1 := by rw [hsema', hst1]
      have hnum2 : st'.numChannels = st.numChannels := by rw [hnum', hst1]
      refine ⟨by omega, by rw [halloc2]; omega, ?_⟩
      simp only [countAlloc] at hsum ⊢
      rw [halloc2, hsema2]
      omega
  | release id hid halloc =>
    have htrue : st.allocated[id] = true := by
      rw [List.getD_eq_getElem?_getD, List.getElem?_eq_getElem hid] at halloc
      simpa using halloc
    have hpos : 0 < st.allocated.count true :=
      List.count_pos_iff.mpr (htrue ▸ List.getElem_mem hid)
    have hcount : (st.allocated.set id false).count true + 1 =
        st.allocated.count true := by
      rw [List.count_set _ _ _ _ hid, htrue]
      simp
      omega
    refine ⟨hn, by simp [release_channel]; omega, ?_⟩
    simp only [countAlloc, release_channel] at hsum ⊢
    omega

theorem reachable_inv {n : Nat} {st : ChannelList}
    (h : Reachable n st) : PoolInv n st := by
  induction h with
  | init =>
    refine ⟨rfl, by simp [host1x_channel_list_init], ?_⟩
    simp [host1x_channel_list_init, countAlloc, List.count_replicate]
  | step _ hstep ih => exact poolStep_inv ih hstep

/-- C4: in every reachable state of a size-`n` channel pool at most `n`
channels are leased, and a non-blocking request made while all `n` are
leased fails immediately with `-EBUSY`, leaving the pool unchanged. -/
theorem C4_channel_pool_bound {n : Nat} {st : ChannelList}
    (h : Reachable n st) :
    countAlloc st ≤ n ∧
    (countAlloc st = n →
      ∀ (intr : Bool) (o : InitOracle),
        host1x_channel_request st false intr o = .err st .EBUSY) := by
  obtain ⟨hn, hlen, hsum⟩ := reachable_inv h
  refine ⟨by omega, fun hfull intr o => ?_⟩
  have hsema : st.sema = 0 := by omega
  unfold host1x_channel_request acquire_unused_channel
  simp [hsema]

/-- Witness for C4: a size-1 pool with its channel leased (reached by
one successful request from the initial state) rejects a further
non-blocking request with `-EBUSY`. -/
theorem C4_channel_pool_bound_witness :
    countAlloc exFullPool ≤ 1 ∧
    host1x_channel_request exFullPool false false exInitOk =
      .err exFullPool .EBUSY := by
  have hstep : PoolStep (host1x_channel_list_init 1) exFullPool :=
    .requestOk _ false false exInitOk _ ⟨0, 1, true⟩ (by decide)
  have hreach : Reachable 1 exFullPool := .step .init hstep
  exact ⟨(C4_channel_pool_bound hreach).1,
    (C4_channel_pool_bound hreach).2 (by decide) false exInitOk⟩

/-- C5: every successful channel request returns the channel at the
lowest-numbered free bitmap index as of acquisition (that index is free,
all lower ones are allocated), marks it allocated, leaves the slot with
an initialized or reused push buffer, and returns refcount exactly 1. -/
theorem C5_request_success_spec {st : ChannelList} {wait intr : Bool}
    {o : InitOracle} {st' : ChannelList} {ch : Channel}
    (hlen : st.allocated.length = st.numChannels)
    (hplen : st.pbRetained.length = st.numChannels)
    (h : host1x_channel_request st wait intr o = .ok st' ch) :
    ch.id = find_first_zero_bit st.allocated ∧
    ch.id < st.numChannels ∧
    st.allocated.getD ch.id true = false ∧
    (∀ j, j < ch.id → st.allocated.getD j false = true) ∧
    st'.allocated.getD ch.id false = true ∧
    ch.refcount = 1 ∧ ch.pbMapped = true ∧
    st'.pbRetained.getD ch.id false = true := by
  obtain ⟨st1, idx, hacq, hch, hrest⟩ := request_ok_spec h
  obtain ⟨hsema, hidx, hlt, hst1⟩ := acquire_ok_spec hacq
  subst hch
  dsimp only
  have hidlen : idx < st.allocated.length := by omega
  have hfalse : st.allocated[idx] = false := by
    subst hidx; exact findIdx_zero_bit_false hidlen
  refine ⟨hidx, hlt, ?_, ?_, ?_, rfl, rfl, ?_⟩
  · rw [List.getD_eq_getElem?_getD, List.getElem?_eq_getElem hidlen, hfalse]
    rfl
  · intro j hj
    have hj' : j < idx := hj
    have hjlen : j < st.allocated.length := by omega
    have hnp := List.not_of_lt_findIdx
      (show j < List.findIdx (fun b => !b) st.allocated from by
        rw [hidx] at hj'; exact hj')
    rw [List.getD_eq_getElem?_getD, List.getElem?_eq_getElem hjlen]
    simpa using hnp
  · have halloc' : st'.allocated = st.allocated.set idx true := by
      rcases hrest with ⟨h1, _⟩ | h1 <;> rw [h1, hst1]
    rw [halloc', List.getD_eq_getElem?_getD,
      List.getElem?_eq_getElem (by rw [List.length_set]; exact hidlen),
      List.getElem_set_self]
    rfl
  · rcases hrest with ⟨h1, h2⟩ | h1
    · rw [h1]
      exact h2
    · rw [h1]
      have hpl : idx < st1.pbRetained.length := by
        simp only [hst1]
        omega
      rw [List.getD_eq_getElem?_getD,
        List.getElem?_eq_getElem (by rw [List.length_set]; exact hpl),
        List.getElem_set_self]
      rfl

/-- Witness for C5: on a size-2 pool with slot 0 taken, a request leases
slot 1 (the lowest free index), marks it, initializes its push buffer
and returns refcount 1. -/
theorem C5_request_success_spec_witness :
    host1x_channel_request ⟨2, 2, [true, false], [false, false]⟩ false false
      exInitOk = .ok ⟨2, 1, [true, true], [false, true]⟩ ⟨1, 1, true⟩ ∧
    (1 : Nat) = find_first_zero_bit [true, false] ∧
    ([true, false].getD 1 true = false) ∧
    ([true, false].getD 0 false = true) ∧
    ([true, true].getD 1 false = true) := by
  have h := @C5_request_success_spec ⟨2, 2, [true, false], [false, false]⟩
    false false exInitOk ⟨2, 1, [true, true], [false, true]⟩ ⟨1, 1, true⟩
    (by decide) (by decide) (by decide)
  exact ⟨by decide, h.1, h.2.2.1, h.2.2.2.1 0 (by decide), h.2.2.2.2.1⟩

/-- C6: when hardware or push-buffer initialization fails during
`host1x_channel_request`, the acquired slot's bitmap bit is rolled back
and the error propagates, but the semaphore credit taken for the
acquisition is not returned: the pool's capacity (free credits plus
leased slots) shrinks by one. -/
theorem C6_init_failure_spec {st st1 st' : ChannelList} {wait intr : Bool}
    {o : InitOracle} {idx : Nat} {e : ChanErr}
    (hlen : st.allocated.length = st.numChannels)
    (hacq : acquire_unused_channel st wait intr = .ok st1 idx)
    (hreq : host1x_channel_request st wait intr o = .err st' e) :
    st'.allocated = st.allocated ∧
    st'.allocated.getD idx false = false ∧
    e = ChanErr.EIO ∧
    0 < st.sema ∧ st'.sema = st.sema - 1 ∧
    countAlloc st' + st'.sema + 1 = countAlloc st + st.sema := by
  rcases request_err_spec hreq with herr |
    ⟨st1b, idxb, hacq2, halloc', hsema', hnum', heio⟩
  · rw [hacq] at herr
    nomatch herr
  · rw [hacq] at hacq2
    injection hacq2 with h1 h2
    subst h1
    subst h2
    obtain ⟨hsema, hidx, hlt, hst1⟩ := acquire_ok_spec hacq
    have hidlen : idx < st.allocated.length := by omega
    have hfalse : st.allocated[idx] = false := by
      subst hidx; exact findIdx_zero_bit_false hidlen
    have halloc2 : st'.allocated = st.allocated := by
      rw [halloc', hst1]
      simp only [List.set_set]
      exact set_getD_self _ _ _ (by
        rw [List.getD_eq_getElem?_getD, List.getElem?_eq_getElem hidlen, hfalse]
        rfl)
    have hsema2 : st'.sema = st.sema - 1 := by rw [hsema', hst1]
    have hcnt : countAlloc st' = countAlloc st := by
      simp only [countAlloc, halloc2]
    refine ⟨halloc2, ?_, heio, by omega, hsema2, by omega⟩
    rw [halloc2, List.getD_eq_getElem?_getD, List.getElem?_eq_getElem hidlen,
      hfalse]
    rfl

/-- Witness for C6: a size-1 pool whose hardware init fails ends with an
empty bitmap but zero semaphore credits — capacity one short. -/
theorem C6_init_failure_spec_witness :
    host1x_channel_request (host1x_channel_list_init 1) false false
      ⟨false, true, true⟩ = .err ⟨1, 0, [false], [false]⟩ ChanErr.EIO ∧
    (⟨1, 0, [false], [false]⟩ : ChannelList).allocated =
      (host1x_channel_list_init 1).allocated ∧
    (⟨1, 0, [false], [false]⟩ : ChannelList).sema =
      (host1x_channel_list_init 1).sema - 1 ∧
    countAlloc ⟨1, 0, [false], [false]⟩ +
      (⟨1, 0, [false], [false]⟩ : ChannelList).sema + 1 =
      countAlloc (host1x_channel_list_init 1) +
        (host1x_channel_list_init 1).sema := by
  have h := @C6_init_failure_spec (host1x_channel_list_init 1)
    ⟨1, 0, [true], [false]⟩ ⟨1, 0, [false], [false]⟩ false false
    ⟨false, true, true⟩ 0 ChanErr.EIO (by decide) (by decide) (by decide)
  exact ⟨by decide, h.1, h.2.2.2.2.1, h.2.2.2.2.2⟩

/-! ### Submission-path trace lemmas -/

theorem count_eq_zero_of_all {l : List Ev} {p : Ev → Bool}
    (h : ∀ e ∈ l, p e = true) {a : Ev} (ha : p a = false) : l.count a = 0 := by
  rw [List.count_eq_zero]
  intro hmem
  rw [h a hmem] at ha
  exact Bool.noConfusion ha

theorem count_mapPut_map (l : List UsedMapping) (id : Nat) :
    (l.map (fun um => Ev.mapPut um.mapping_id)).count (Ev.mapPut id) =
      (l.filter (fun um => um.mapping_id == id)).length := by
  induction l with
  | nil => rfl
  | cons a t ih =>
    simp only [List.map_cons, List.count_cons, List.filter_cons, ih]
    by_cases h : a.mapping_id = id
    · simp [h]
    · simp [h]

theorem dropRefs_count_get (acc : List UsedMapping) (id : Nat) :
    (dropRefsTrace acc).count (Ev.mapGet id) = 0 := by
  rw [List.count_eq_zero]
  intro hmem
  rcases List.mem_map.mp hmem with ⟨um, _, heq⟩
  exact Ev.noConfusion heq

theorem dropRefs_count_put (acc : List UsedMapping) (id : Nat) :
    (dropRefsTrace acc).count (Ev.mapPut id) = countIdIn acc id := by
  unfold dropRefsTrace countIdIn
  rw [count_mapPut_map, List.filter_reverse, List.length_reverse]

theorem dropRefs_shape (acc : List UsedMapping) :
    ∀ e ∈ dropRefsTrace acc, evIsMapEv e = true := by
  intro e he
  rcases List.mem_map.mp he with ⟨um, _, rfl⟩
  rfl

theorem processBufsLoop_shape (ctx : List (Nat × Mapping)) :
    ∀ (bufs : List SubmitBuf) (bo : GatherBo) (acc : List UsedMapping),
      ∀ e ∈ (processBufsLoop ctx bo acc bufs).1, evIsMapEv e = true := by
  intro bufs
  induction bufs with
  | nil =>
    intro bo acc e he
    simp [processBufsLoop] at he
  | cons b rest ih =>
    intro bo acc e he
    simp only [processBufsLoop] at he
    split at he
    · exact dropRefs_shape acc e he
    · split at he
      · exact dropRefs_shape acc e he
      · split at he
        · exact dropRefs_shape acc e he
        · split at he
          · simp only [List.cons_append, List.mem_cons, List.nil_append] at he
            rcases he with rfl | he
            · rfl
            · rcases he with rfl | he
              · rfl
              · exact dropRefs_shape acc e he
          · simp only [List.mem_cons] at he
            rcases he with rfl | he
            · rfl
            · exact ih _ _ e he

theorem countIdIn_append (acc : List UsedMapping) (um : UsedMapping) (id : Nat) :
    countIdIn (acc ++ [um]) id =
      countIdIn acc id + (if um.mapping_id = id then 1 else 0) := by
  unfold countIdIn
  rw [List.filter_append, List.length_append, List.filter_cons]
  by_cases h : um.mapping_id = id
  · simp [h]
  · simp [h]

theorem processBufsLoop_unknown_id (ctx : List (Nat × Mapping))
    (bad : SubmitBuf) (rest : List SubmitBuf)
    (hbad : xa_load ctx bad.mapping_id = none) :
    ∀ (good : List SubmitBuf) (bo : GatherBo) (acc : List UsedMapping),
      (∀ b ∈ good, bufOk ctx bo.gather_data.length b) →
      (processBufsLoop ctx bo acc (good ++ bad :: rest)).2 = .error .EINVAL ∧
      (∀ id,
        (processBufsLoop ctx bo acc (good ++ bad :: rest)).1.count (Ev.mapGet id)
            + countIdIn acc id =
          (processBufsLoop ctx bo acc (good ++ bad :: rest)).1.count (Ev.mapPut id)) := by
  intro good
  induction good with
  | nil =>
    intro bo acc _
    simp only [List.nil_append, processBufsLoop]
    by_cases h1 : bad.flags ||| BUF_FLAGS_MASK ≠ BUF_FLAGS_MASK
    · rw [if_pos h1]
      exact ⟨rfl, fun id => by rw [dropRefs_count_get, dropRefs_count_put]; omega⟩
    · rw [if_neg h1]
      by_cases h2 : bad.reserved0 ≠ 0 ∨ bad.reserved1 ≠ 0
      · rw [if_pos h2]
        exact ⟨rfl, fun id => by rw [dropRefs_count_get, dropRefs_count_put]; omega⟩
      · rw [if_neg h2, hbad]
        exact ⟨rfl, fun id => by rw [dropRefs_count_get, dropRefs_count_put]; omega⟩
  | cons b gs ih =>
    intro bo acc hgood
    obtain ⟨hfl, hr0, hr1, ⟨m, hm⟩, hoff⟩ := hgood b (List.mem_cons_self b gs)
    obtain ⟨bo2, hwok, hlen2⟩ : ∃ bo2, submit_write_reloc bo b m = .ok bo2 ∧
        bo2.gather_data.length = bo.gather_data.length := by
      unfold submit_write_reloc
      rw [if_neg (by omega)]
      exact ⟨_, rfl, by simp⟩
    simp only [List.cons_append, processBufsLoop]
    rw [if_neg (by simp [hfl]), if_neg (by simp [hr0, hr1])]
    simp only [hm, hwok]
    have ihs := ih bo2 (acc ++ [⟨b.mapping_id, m, b.flags⟩]) (by
      intro b' hb'
      have hb2 := hgood b' (List.mem_cons_of_mem b hb')
      rw [bufOk, hlen2]
      exact hb2)
    refine ⟨ihs.1, fun id => ?_⟩
    have h2 := ihs.2 id
    rw [countIdIn_append] at h2
    simp only [List.count_cons]
    by_cases hid : b.mapping_id = id
    · simp only [hid] at h2 ⊢
      simp only [show (Ev.mapGet id == Ev.mapGet id) = true from by simp,
        show (Ev.mapGet id == Ev.mapPut id) = false from by rfl]
      simp at h2 ⊢
      omega
    · simp only [show (Ev.mapGet b.mapping_id == Ev.mapGet id) = false from by
        simp [hid],
        show (Ev.mapGet b.mapping_id == Ev.mapPut id) = false from by rfl]
      simp [hid] at h2 ⊢
      omega

theorem submit_copy_ok {args : SubmitArgs} {o : SubmitOracle}
    (hcg : o.copyGatherRes = none) (hgd : args.gather_data ≠ []) :
    submit_copy_gather_data args o = .ok ⟨args.gather_data⟩ := by
  unfold submit_copy_gather_data
  rw [if_neg (by simpa using hgd), hcg]

theorem ioctl_bufs_error {ctx : List (Nat × Mapping)} {args : SubmitArgs}
    {o : SubmitOracle} {k : Nat} {t : List Ev} {e : Err}
    (hres0 : args.reserved0 = 0) (hres1 : args.reserved1 = 0)
    (hctx : o.ctxFound = true) (hcg : o.copyGatherRes = none)
    (hgd : args.gather_data ≠ []) (hjd : o.jobDataAllocOk = true)
    (hpb : submit_process_bufs ctx ⟨args.gather_data⟩ args o = (t, .error e)) :
    tegra_drm_ioctl_channel_submit ctx args o k =
      (t ++ [Ev.boPut, Ev.ctxUnlock], .error e) := by
  unfold tegra_drm_ioctl_channel_submit
  rw [if_neg (by simp [hres0, hres1])]
  simp [hctx, hjd, submit_copy_ok hcg hgd, hpb, free_job_data_trace]

/-- C8: a submission referencing a mapping id not registered in the
channel context fails with `-EINVAL`; every mapping reference taken for
earlier buffers is dropped again (get/put counts balance for every id),
and the submission path performs no channel-pool operation and no
registry modification. -/
theorem C8_unknown_mapping_id {ctx : List (Nat × Mapping)} {args : SubmitArgs}
    {o : SubmitOracle} {k : Nat} {good rest : List SubmitBuf} {bad : SubmitBuf}
    (hres0 : args.reserved0 = 0) (hres1 : args.reserved1 = 0)
    (hctx : o.ctxFound = true) (hcg : o.copyGatherRes = none)
    (hgd : args.gather_data ≠ []) (hjd : o.jobDataAllocOk = true)
    (hbc : o.bufsCopyRes = none) (hma : o.mappingsAllocOk = true)
    (hsplit : args.bufs = good ++ bad :: rest)
    (hgood : ∀ b ∈ good, bufOk ctx args.gather_data.length b)
    (hbad : xa_load ctx bad.mapping_id = none) :
    (tegra_drm_ioctl_channel_submit ctx args o k).2 = .error .EINVAL ∧
    (∀ id, (tegra_drm_ioctl_channel_submit ctx args o k).1.count (Ev.mapGet id) =
           (tegra_drm_ioctl_channel_submit ctx args o k).1.count (Ev.mapPut id)) ∧
    (tegra_drm_ioctl_channel_submit ctx args o k).1.count Ev.chanRequest = 0 ∧
    (tegra_drm_ioctl_channel_submit ctx args o k).1.count Ev.chanPut = 0 ∧
    (∀ id,
      (tegra_drm_ioctl_channel_submit ctx args o k).1.count (Ev.mapRegister id) = 0 ∧
      (tegra_drm_ioctl_channel_submit ctx args o k).1.count (Ev.mapUnregister id) = 0) := by
  have hlem := processBufsLoop_unknown_id ctx bad rest hbad good
    ⟨args.gather_data⟩ [] hgood
  rcases hloopEq : processBufsLoop ctx ⟨args.gather_data⟩ [] (good ++ bad :: rest)
    with ⟨t, r⟩
  rw [hloopEq] at hlem
  have hr : r = .error .EINVAL := hlem.1
  subst hr
  have hpb : submit_process_bufs ctx ⟨args.gather_data⟩ args o =
      (t, .error .EINVAL) := by
    unfold submit_process_bufs
    rw [hsplit]
    simp [hbc, hma, hloopEq]
  have hio := @ioctl_bufs_error ctx args o k t .EINVAL hres0 hres1 hctx hcg hgd
    hjd hpb
  rw [hio]
  have hshape : ∀ e ∈ t, evIsMapEv e = true := by
    have hs := processBufsLoop_shape ctx (good ++ bad :: rest) ⟨args.gather_data⟩ []
    rw [hloopEq] at hs
    exact hs
  refine ⟨rfl, fun id => ?_, ?_, ?_, fun id => ⟨?_, ?_⟩⟩
  · have h2 := hlem.2 id
    simp only [countIdIn, List.filter_nil, List.length_nil] at h2
    rw [List.count_append, List.count_append]
    have hg : List.count (Ev.mapGet id) [Ev.boPut, Ev.ctxUnlock] = 0 := rfl
    have hq : List.count (Ev.mapPut id) [Ev.boPut, Ev.ctxUnlock] = 0 := rfl
    omega
  · rw [List.count_append, count_eq_zero_of_all hshape (a := Ev.chanRequest) rfl]
    rfl
  · rw [List.count_append, count_eq_zero_of_all hshape (a := Ev.chanPut) rfl]
    rfl
  · rw [List.count_append,
      count_eq_zero_of_all hshape (a := Ev.mapRegister id) rfl]
    rfl
  · rw [List.count_append,
      count_eq_zero_of_all hshape (a := Ev.mapUnregister id) rfl]
    rfl

/-- Witness for C8: a two-buffer submission whose second buffer names
unregistered mapping id 99 fails with `-EINVAL` with balanced get/put
counts for mapping 1 and no channel-pool activity. -/
theorem C8_unknown_mapping_id_witness :
    (tegra_drm_ioctl_channel_submit exCtx
      { exArgs with bufs := [exBuf, { exBuf with mapping_id := 99 }] }
      exOracleOk 0).2 = .error .EINVAL ∧
    (tegra_drm_ioctl_channel_submit exCtx
      { exArgs with bufs := [exBuf, { exBuf with mapping_id := 99 }] }
      exOracleOk 0).1.count (Ev.mapGet 1) =
      (tegra_drm_ioctl_channel_submit exCtx
        { exArgs with bufs := [exBuf, { exBuf with mapping_id := 99 }] }
        exOracleOk 0).1.count (Ev.mapPut 1) ∧
    (tegra_drm_ioctl_channel_submit exCtx
      { exArgs with bufs := [exBuf, { exBuf with mapping_id := 99 }] }
      exOracleOk 0).1.count Ev.chanRequest = 0 := by
  have h := @C8_unknown_mapping_id exCtx
    { exArgs with bufs := [exBuf, { exBuf with mapping_id := 99 }] }
    exOracleOk 0 [exBuf] [] { exBuf with mapping_id := 99 }
    rfl rfl rfl rfl (by decide) rfl rfl rfl rfl
    (by
      intro b hb
      rw [List.mem_singleton] at hb
      subst hb
      exact ⟨by decide, by decide, by decide, ⟨⟨4096⟩, by decide⟩, by decide⟩)
    (by decide)
  exact ⟨h.1, h.2.1 1, h.2.2.1⟩

/-! ### Command-loop lemmas for the job-construction phase -/

theorem createJobLoop_err_einval (bo : GatherBo) (o : SubmitOracle)
    (hsf : ∀ fd, (o.syncFileFence fd).isSome = true)
    (hfw : ∀ f, o.fenceWaitRes f = none) :
    ∀ (cmds : List SubmitCmd) (job : Job) (go : Nat),
      (∃ jg, (createJobLoop bo o job go cmds).2 = .ok jg) ∨
      (createJobLoop bo o job go cmds).2 = .error .EINVAL := by
  intro cmds
  induction cmds with
  | nil => intro job go; exact .inl ⟨_, rfl⟩
  | cons c rest ih =>
    intro job go
    cases c with
    | gatherUptr words r0 r1 r2 =>
      simp only [createJobLoop]
      split
      · exact .inr rfl
      · split
        · exact .inr rfl
        · split
          · exact .inr rfl
          · exact ih _ _
    | waitSyncpt id threshold r0 r1 =>
      simp only [createJobLoop]
      split
      · exact .inr rfl
      · exact ih _ _
    | waitSyncFile fd r0 r1 r2 =>
      simp only [createJobLoop]
      split
      · exact .inr rfl
      · rcases hf : o.syncFileFence fd with _ | f
        · have := hsf fd
          rw [hf] at this
          exact absurd this (by simp)
        · simp only [hf, hfw f]
          exact ih _ _
    | unknown ty =>
      simp [createJobLoop]

theorem createJobLoop_ok_valid (bo : GatherBo) (o : SubmitOracle) :
    ∀ (cmds : List SubmitCmd) (job : Job) (go : Nat) (jg : Job × Nat),
      (createJobLoop bo o job go cmds).2 = .ok jg →
      ∀ cmd ∈ cmds, ¬cmdBad cmd := by
  intro cmds
  induction cmds with
  | nil =>
    intro job go jg h cmd hc
    exact absurd hc (List.not_mem_nil cmd)
  | cons c rest ih =>
    intro job go jg h cmd hc
    cases c with
    | gatherUptr words r0 r1 r2 =>
      simp only [createJobLoop] at h
      split at h
      · nomatch h
      · split at h
        · nomatch h
        · split at h
          · nomatch h
          · rcases List.mem_cons.mp hc with rfl | hc'
            · simp only [cmdBad]
              omega
            · exact ih _ _ _ h cmd hc'
    | waitSyncpt id threshold r0 r1 =>
      simp only [createJobLoop] at h
      split at h
      · nomatch h
      · rcases List.mem_cons.mp hc with rfl | hc'
        · simp only [cmdBad]
          omega
        · exact ih _ _ _ h cmd hc'
    | waitSyncFile fd r0 r1 r2 =>
      simp only [createJobLoop] at h
      split at h
      · nomatch h
      · rcases List.mem_cons.mp hc with rfl | hc'
        · simp only [cmdBad]
          omega
        · split at h
          · nomatch h
          · split at h
            · nomatch h
            · exact ih _ _ _ h cmd hc'
    | unknown ty =>
      simp only [createJobLoop] at h
      nomatch h

theorem createJobLoop_ok_no_gather (bo : GatherBo) (o : SubmitOracle) :
    ∀ (cmds : List SubmitCmd) (job : Job) (go : Nat) (jg : Job × Nat),
      (createJobLoop bo o job go cmds).2 = .ok jg →
      (∀ cmd ∈ cmds, isGatherCmd cmd = false) →
      jg.2 = go := by
  intro cmds
  induction cmds with
  | nil =>
    intro job go jg h _
    simp only [createJobLoop] at h
    cases h
    rfl
  | cons c rest ih =>
    intro job go jg h hng
    cases c with
    | gatherUptr words r0 r1 r2 =>
      exact absurd (hng _ (List.mem_cons_self ..)) (by simp [isGatherCmd])
    | waitSyncpt id threshold r0 r1 =>
      simp only [createJobLoop] at h
      split at h
      · nomatch h
      · exact ih _ _ _ h (fun cmd hc => hng cmd (List.mem_cons_of_mem _ hc))
    | waitSyncFile fd r0 r1 r2 =>
      simp only [createJobLoop] at h
      split at h
      · nomatch h
      · split at h
        · nomatch h
        · split at h
          · nomatch h
          · exact ih _ _ _ h (fun cmd hc => hng cmd (List.mem_cons_of_mem _ hc))
    | unknown ty =>
      simp only [createJobLoop] at h
      nomatch h

theorem createJobLoop_shape (bo : GatherBo) (o : SubmitOracle) :
    ∀ (cmds : List SubmitCmd) (job : Job) (go : Nat),
      ∀ e ∈ (createJobLoop bo o job go cmds).1, evIsCreateEv e = true := by
  intro cmds
  induction cmds with
  | nil =>
    intro job go e he
    simp [createJobLoop] at he
  | cons c rest ih =>
    intro job go e he
    cases c with
    | gatherUptr words r0 r1 r2 =>
      simp only [createJobLoop] at he
      split at he
      · simp at he
      · split at he
        · simp at he
        · split at he
          · simp at he
          · exact ih _ _ e he
    | waitSyncpt id threshold r0 r1 =>
      simp only [createJobLoop] at he
      split at he
      · simp at he
      · exact ih _ _ e he
    | waitSyncFile fd r0 r1 r2 =>
      simp only [createJobLoop] at he
      split at he
      · simp at he
      · split at he
        · simp at he
        · split at he
          · rw [List.mem_singleton] at he
            subst he
            rfl
          · rw [List.mem_cons] at he
            rcases he with rfl | he'
            · rfl
            · exact ih _ _ e he'
    | unknown ty =>
      simp only [createJobLoop] at he
      simp at he

theorem createJobLoop_error_einval (bo : GatherBo) (o : SubmitOracle)
    (hsf : ∀ fd, (o.syncFileFence fd).isSome = true)
    (hfw : ∀ f, o.fenceWaitRes f = none)
    (cmds : List SubmitCmd) (job : Job) (go : Nat) (t : List Ev) (e : Err)
    (h : createJobLoop bo o job go cmds = (t, .error e)) : e = .EINVAL := by
  rcases createJobLoop_err_einval bo o hsf hfw cmds job go with ⟨jg, hok⟩ | herr
  · rw [h] at hok
    nomatch hok
  · rw [h] at herr
    simpa using herr

theorem submit_get_syncpt_spec (args : SubmitArgs) (o : SubmitOracle)
    (hsp : ∃ sp, o.syncptFdRes = .ok sp) :
    (∀ e, submit_get_syncpt args o = .error e → e = .EINVAL) ∧
    (∀ r, submit_get_syncpt args o = .ok r → args.incr1_num_incrs = 0) := by
  obtain ⟨sp, hspe⟩ := hsp
  constructor
  · intro e h
    unfold submit_get_syncpt at h
    split at h
    · cases h
      rfl
    · split at h
      · cases h
        rfl
      · simp only [hspe] at h
        nomatch h
  · intro r h
    unfold submit_get_syncpt at h
    split at h
    · nomatch h
    · rename_i hinc
      omega

theorem submit_create_job_bad (bo : GatherBo) (args : SubmitArgs)
    (o : SubmitOracle) (ni : Bool) (k : Nat)
    (hcc : o.cmdsCopyRes = none) (hja : o.jobAllocOk = true)
    (hsp : ∃ sp, o.syncptFdRes = .ok sp)
    (hsf : ∀ fd, (o.syncFileFence fd).isSome = true)
    (hfw : ∀ f, o.fenceWaitRes f = none)
    (hbad : submitBadCmds args) :
    (submit_create_job bo args o ni k).2 = .error .EINVAL := by
  unfold submit_create_job
  simp only [hcc]
  rw [if_neg (by simp [hja])]
  cases hg : submit_get_syncpt args o with
  | error e =>
    simp only [hg]
    rw [(submit_get_syncpt_spec args o hsp).1 e hg]
  | ok r =>
    obtain ⟨spid, nincr⟩ := r
    simp only [hg]
    have hinc0 : args.incr1_num_incrs = 0 :=
      (submit_get_syncpt_spec args o hsp).2 (spid, nincr) hg
    have hbad2 : (∃ cmd ∈ args.cmds, cmdBad cmd) ∨
        (∀ cmd ∈ args.cmds, isGatherCmd cmd = false) := by
      rcases hbad with h | h | h
      · exact .inl h
      · exact absurd hinc0 h
      · exact .inr h
    split
    · rename_i t e heq
      rw [createJobLoop_error_einval bo o hsf hfw _ _ _ _ _ heq]
    · rename_i t job go heq
      rcases hbad2 with ⟨cmd, hc, hcb⟩ | hng
      · exact absurd hcb
          (createJobLoop_ok_valid bo o _ _ _ (job, go) (by rw [heq]) cmd hc)
      · have hgo : go = 0 := by
          have := createJobLoop_ok_no_gather bo o _ _ _ (job, go)
            (by rw [heq]) hng
          simpa using this
        rw [if_pos hgo]

theorem submit_process_bufs_shape (ctx : List (Nat × Mapping)) (bo : GatherBo)
    (args : SubmitArgs) (o : SubmitOracle) :
    ∀ e ∈ (submit_process_bufs ctx bo args o).1, evIsMapEv e = true := by
  intro e he
  unfold submit_process_bufs at he
  split at he
  · simp at he
  · split at he
    · simp at he
    · split at he
      · rename_i t e2 heq
        have hs := processBufsLoop_shape ctx args.bufs bo []
        rw [heq] at hs
        exact hs e he
      · rename_i t bo2 used heq
        have hs := processBufsLoop_shape ctx args.bufs bo []
        rw [heq] at hs
        exact hs e he

theorem free_job_data_shape (jd : Option (List UsedMapping)) :
    ∀ e ∈ free_job_data_trace jd, evIsMapEv e = true := by
  intro e he
  cases jd with
  | none => simp [free_job_data_trace] at he
  | some used =>
    rcases List.mem_map.mp he with ⟨um, _, rfl⟩
    rfl

theorem createJobTail_shape (bo : GatherBo) (o : SubmitOracle)
    (cmds : List SubmitCmd) (job1 : Job) :
    ∀ e ∈ (match createJobLoop bo o job1 0 cmds with
           | (t, Except.error e2) => (t ++ [Ev.jobPut, Ev.jobFreed], Except.error e2)
           | (t, Except.ok (job, go)) =>
             if go = 0 then (t ++ [Ev.jobPut, Ev.jobFreed], Except.error Err.EINVAL)
             else (t, Except.ok job)).1, evIsCreateEv e = true := by
  intro e he
  split at he
  · rename_i t e2 heq
    have hs := createJobLoop_shape bo o cmds job1 0
    rw [heq] at hs
    rw [List.mem_append] at he
    rcases he with he | he
    · exact hs e he
    · simp at he
      rcases he with rfl | rfl <;> rfl
  · rename_i t job go heq
    have hs := createJobLoop_shape bo o cmds job1 0
    rw [heq] at hs
    split at he
    · rw [List.mem_append] at he
      rcases he with he | he
      · exact hs e he
      · simp at he
        rcases he with rfl | rfl <;> rfl
    · exact hs e he

theorem submit_create_job_shape (bo : GatherBo) (args : SubmitArgs)
    (o : SubmitOracle) (ni : Bool) (k : Nat) :
    ∀ e ∈ (submit_create_job bo args o ni k).1, evIsCreateEv e = true := by
  intro e he
  unfold submit_create_job at he
  split at he
  · simp at he
  · split at he
    · simp at he
    · split at he
      · simp at he
        rcases he with rfl | rfl <;> rfl
      · split at he
        · exact createJobTail_shape bo o args.cmds _ e he
        · exact createJobTail_shape bo o args.cmds _ e he

theorem ioctl_create_error {ctx : List (Nat × Mapping)} {args : SubmitArgs}
    {o : SubmitOracle} {k : Nat} {tb : List Ev} {bo2 : GatherBo}
    {used : List UsedMapping} {ni : Bool} {tj : List Ev} {e : Err}
    (hres0 : args.reserved0 = 0) (hres1 : args.reserved1 = 0)
    (hctx : o.ctxFound = true) (hcg : o.copyGatherRes = none)
    (hgd : args.gather_data ≠ []) (hjd : o.jobDataAllocOk = true)
    (hpb : submit_process_bufs ctx ⟨args.gather_data⟩ args o =
      (tb, .ok (bo2, used, ni)))
    (hcj : submit_create_job bo2 args o ni k = (tj, .error e)) :
    tegra_drm_ioctl_channel_submit ctx args o k =
      (tb ++ tj ++ free_job_data_trace (some used) ++ [Ev.boPut, Ev.ctxUnlock],
        .error e) := by
  unfold tegra_drm_ioctl_channel_submit
  rw [if_neg (by simp [hres0, hres1])]
  simp [hctx, hjd, submit_copy_ok hcg hgd, hpb, hcj]

/-- C7: whenever a submission's command list contains a nonzero reserved
field, a gather above the 16383-word ceiling or an unrecognized type,
or more than one target syncpoint increment is requested, or no gather
command is present, the ioctl rejects the request with `-EINVAL` and
nothing is submitted to hardware; and syncpoint-wait ids are not
validated against existence (a wait on an arbitrary id 9999 is accepted
below in the witness for every id). -/
theorem C7_command_validation :
    (∀ (ctx : List (Nat × Mapping)) (args : SubmitArgs) (o : SubmitOracle)
        (k : Nat) (tb : List Ev) (bo2 : GatherBo) (used : List UsedMapping)
        (ni : Bool),
      goodOracle o → args.reserved0 = 0 → args.reserved1 = 0 →
      args.gather_data ≠ [] →
      submit_process_bufs ctx ⟨args.gather_data⟩ args o =
        (tb, .ok (bo2, used, ni)) →
      submitBadCmds args →
      (tegra_drm_ioctl_channel_submit ctx args o k).2 = .error .EINVAL ∧
      (tegra_drm_ioctl_channel_submit ctx args o k).1.count Ev.hwSubmit = 0) ∧
    (∀ id threshold : Nat,
      (tegra_drm_ioctl_channel_submit exCtx (exArgsWithWait id threshold)
        exOracleOk 0).2 = .ok ()) := by
  constructor
  · intro ctx args o k tb bo2 used ni hgo hres0 hres1 hgd hpb hbad
    obtain ⟨hctx, hcg, hjd, hbc, hma, hcc, hja, hsp, hsf, hfw⟩ := hgo
    have hcj2 := submit_create_job_bad bo2 args o ni k hcc hja hsp hsf hfw hbad
    rcases hcjEq : submit_create_job bo2 args o ni k with ⟨tj, rj⟩
    rw [hcjEq] at hcj2
    have hrj : rj = .error .EINVAL := hcj2
    subst hrj
    have hio := @ioctl_create_error ctx args o k tb bo2 used ni tj .EINVAL
      hres0 hres1 hctx hcg hgd hjd hpb hcjEq
    rw [hio]
    refine ⟨rfl, ?_⟩
    have hsb : ∀ e ∈ tb, evIsMapEv e = true := by
      have hs := submit_process_bufs_shape ctx ⟨args.gather_data⟩ args o
      rw [hpb] at hs
      exact hs
    have hsj : ∀ e ∈ tj, evIsCreateEv e = true := by
      have hs := submit_create_job_shape bo2 args o ni k
      rw [hcjEq] at hs
      exact hs
    rw [List.count_append, List.count_append, List.count_append,
      count_eq_zero_of_all hsb (a := Ev.hwSubmit) rfl,
      count_eq_zero_of_all hsj (a := Ev.hwSubmit) rfl,
      count_eq_zero_of_all (free_job_data_shape (some used))
        (a := Ev.hwSubmit) rfl]
    rfl
  · intro id threshold
    simp [tegra_drm_ioctl_channel_submit, submit_copy_gather_data,
      submit_process_bufs, processBufsLoop, submit_write_reloc,
      submit_create_job, submit_get_syncpt, createJobLoop, exArgsWithWait,
      exArgs, exOracleOk, exCtx, exBuf, exIncr, xa_load, needImplicit,
      BUF_FLAGS_MASK, DRM_TEGRA_SUBMIT_BUF_RELOC_BLOCKLINEAR,
      DRM_TEGRA_SUBMIT_BUF_RESV_READ, DRM_TEGRA_SUBMIT_BUF_RESV_WRITE,
      DRM_TEGRA_SUBMIT_SYNCPT_INCR_CREATE_SYNC_FILE]

/-- Witness for C7: a submission whose only command has an unrecognized
type is rejected with `-EINVAL` and nothing reaches hardware, while a
submission with a syncpoint wait on arbitrary id 9999 succeeds. -/
theorem C7_command_validation_witness :
    ((tegra_drm_ioctl_channel_submit exCtx { exArgs with cmds := [.unknown 5] }
        exOracleOk 0).2 = .error .EINVAL ∧
      (tegra_drm_ioctl_channel_submit exCtx { exArgs with cmds := [.unknown 5] }
        exOracleOk 0).1.count Ev.hwSubmit = 0) ∧
    (tegra_drm_ioctl_channel_submit exCtx (exArgsWithWait 9999 5)
      exOracleOk 0).2 = .ok () :=
  ⟨C7_command_validation.1 exCtx { exArgs with cmds := [.unknown 5] }
      exOracleOk 0 [Ev.mapGet 1] ⟨[4096, 0, 0, 0]⟩ [⟨1, ⟨4096⟩, 0⟩] false
      ⟨rfl, rfl, rfl, rfl, rfl, rfl, rfl, ⟨7, rfl⟩, fun _ => rfl, fun _ => rfl⟩
      rfl rfl (by decide) rfl
      (.inl ⟨.unknown 5, by simp, trivial⟩),
    C7_command_validation.2 9999 5⟩

/-! ### Trace lemmas for the sync-file wait property -/

theorem forall_mem_append {P : Ev → Prop} {t1 t2 : List Ev}
    (h1 : ∀ e ∈ t1, P e) (h2 : ∀ e ∈ t2, P e) : ∀ e ∈ t1 ++ t2, P e := by
  intro e he
  rcases List.mem_append.mp he with h | h
  · exact h1 e h
  · exact h2 e h

theorem mapEv_no_wait {e : Ev} (h : evIsMapEv e = true) :
    evIsCpuWait e = false ∧ evIsNonIntrCpuWait e = false ∧
      evIsPinOrSubmit e = false := by
  cases e <;> simp_all [evIsMapEv, evIsCpuWait, evIsNonIntrCpuWait, evIsPinOrSubmit]

theorem createEv_props {e : Ev} (h : evIsCreateEv e = true) :
    evIsPinOrSubmit e = false ∧ evIsNonIntrCpuWait e = false := by
  cases e <;>
    simp_all [evIsCreateEv, evIsPinOrSubmit, evIsNonIntrCpuWait]

theorem job_put_trace_props (rc : Nat) (att : Bool) (used : List UsedMapping) :
    ∀ e ∈ host1x_job_put_trace rc att used,
      evIsCpuWait e = false ∧ evIsNonIntrCpuWait e = false ∧
        evIsPinOrSubmit e = false := by
  intro e he
  unfold host1x_job_put_trace at he
  split at he
  · rw [List.mem_append] at he
    rcases he with he | he
    · simp at he
      rcases he with rfl | rfl <;> exact ⟨rfl, rfl, rfl⟩
    · split at he
      · unfold release_job_trace at he
        rw [List.mem_append] at he
        rcases he with he | he
        · rcases List.mem_map.mp he with ⟨um, _, rfl⟩
          exact ⟨rfl, rfl, rfl⟩
        · simp at he
          subst he
          exact ⟨rfl, rfl, rfl⟩
      · simp at he
  · simp at he
    subst he
    exact ⟨rfl, rfl, rfl⟩

theorem any_cpuWait_false {t : List Ev} (h : ∀ e ∈ t, evIsCpuWait e = false) :
    t.any evIsCpuWait = false := by
  rw [List.any_eq_false]
  intro e he
  rw [h e he]
  exact Bool.false_ne_true

theorem cpuWaitAfter_of_no_pin {t : List Ev}
    (h : ∀ e ∈ t, evIsPinOrSubmit e = false) : cpuWaitAfter t = false := by
  induction t with
  | nil => rfl
  | cons e rest ih =>
    simp only [cpuWaitAfter]
    split
    · rename_i hp
      rw [h e (List.mem_cons_self ..)] at hp
      exact absurd hp (by simp)
    · exact ih (fun x hx => h x (List.mem_cons_of_mem e hx))

theorem cpuWaitAfter_of_no_wait {t : List Ev}
    (h : ∀ e ∈ t, evIsCpuWait e = false) : cpuWaitAfter t = false := by
  induction t with
  | nil => rfl
  | cons e rest ih =>
    simp only [cpuWaitAfter]
    split
    · exact any_cpuWait_false (fun x hx => h x (List.mem_cons_of_mem e hx))
    · exact ih (fun x hx => h x (List.mem_cons_of_mem e hx))

theorem cpuWaitAfter_append {t1 t2 : List Ev}
    (h1 : ∀ e ∈ t1, evIsPinOrSubmit e = false)
    (h2 : ∀ e ∈ t2, evIsCpuWait e = false) :
    cpuWaitAfter (t1 ++ t2) = false := by
  induction t1 with
  | nil => simpa using cpuWaitAfter_of_no_wait h2
  | cons e rest ih =>
    simp only [List.cons_append, cpuWaitAfter]
    split
    · rename_i hp
      rw [h1 e (List.mem_cons_self ..)] at hp
      exact absurd hp (by simp)
    · exact ih (fun x hx => h1 x (List.mem_cons_of_mem e hx))

theorem mapList_P1 {t : List Ev} (h : ∀ e ∈ t, evIsMapEv e = true) :
    ∀ e ∈ t, evIsPinOrSubmit e = false ∧ evIsNonIntrCpuWait e = false :=
  fun e he => ⟨(mapEv_no_wait (h e he)).2.2, (mapEv_no_wait (h e he)).2.1⟩

theorem mapList_P2 {t : List Ev} (h : ∀ e ∈ t, evIsMapEv e = true) :
    ∀ e ∈ t, evIsCpuWait e = false ∧ evIsNonIntrCpuWait e = false :=
  fun e he => ⟨(mapEv_no_wait (h e he)).1, (mapEv_no_wait (h e he)).2.1⟩

theorem createList_P1 {t : List Ev} (h : ∀ e ∈ t, evIsCreateEv e = true) :
    ∀ e ∈ t, evIsPinOrSubmit e = false ∧ evIsNonIntrCpuWait e = false :=
  fun e he => createEv_props (h e he)

theorem jobPut_P2 (rc : Nat) (att : Bool) (used : List UsedMapping) :
    ∀ e ∈ host1x_job_put_trace rc att used,
      evIsCpuWait e = false ∧ evIsNonIntrCpuWait e = false :=
  fun e he => ⟨(job_put_trace_props rc att used e he).1,
    (job_put_trace_props rc att used e he).2.1⟩

theorem ioctl_trace_split (ctx : List (Nat × Mapping)) (args : SubmitArgs)
    (o : SubmitOracle) (k : Nat) :
    ∃ t1 t2, (tegra_drm_ioctl_channel_submit ctx args o k).1 = t1 ++ t2 ∧
      (∀ e ∈ t1, evIsPinOrSubmit e = false ∧ evIsNonIntrCpuWait e = false) ∧
      (∀ e ∈ t2, evIsCpuWait e = false ∧ evIsNonIntrCpuWait e = false) := by
  unfold tegra_drm_ioctl_channel_submit
  split
  · exact ⟨[], [], by simp, by simp, by simp⟩
  · split
    · exact ⟨[], [], by simp, by simp, by simp⟩
    · split
      · exact ⟨[Ev.ctxUnlock], [], by simp, by decide, by simp⟩
      · rename_i bo hcopy
        split
        · exact ⟨[Ev.boPut, Ev.ctxUnlock], [], by simp, by decide, by simp⟩
        · split
          · rename_i tbufs e hpbeq
            have htb : ∀ x ∈ tbufs, evIsMapEv x = true := by
              have hs := submit_process_bufs_shape ctx bo args o
              rw [hpbeq] at hs
              exact hs
            refine ⟨tbufs ++ free_job_data_trace none ++ [Ev.boPut, Ev.ctxUnlock],
              [], by simp, ?_, by simp⟩
            exact forall_mem_append (forall_mem_append (mapList_P1 htb)
              (mapList_P1 (free_job_data_shape none))) (by decide)
          · rename_i tbufs bo2 used ni hpbeq
            have htb : ∀ x ∈ tbufs, evIsMapEv x = true := by
              have hs := submit_process_bufs_shape ctx bo args o
              rw [hpbeq] at hs
              exact hs
            split
            · rename_i tjob e hcjeq
              have htj : ∀ x ∈ tjob, evIsCreateEv x = true := by
                have hs := submit_create_job_shape bo2 args o ni k
                rw [hcjeq] at hs
                exact hs
              refine ⟨tbufs ++ tjob ++ free_job_data_trace (some used) ++
                [Ev.boPut, Ev.ctxUnlock], [], by simp, ?_, by simp⟩
              exact forall_mem_append (forall_mem_append (forall_mem_append
                (mapList_P1 htb) (createList_P1 htj))
                (mapList_P1 (free_job_data_shape (some used)))) (by decide)
            · rename_i tjob job hcjeq
              have htj : ∀ x ∈ tjob, evIsCreateEv x = true := by
                have hs := submit_create_job_shape bo2 args o ni k
                rw [hcjeq] at hs
                exact hs
              have hP1 : ∀ x ∈ tbufs ++ tjob,
                  evIsPinOrSubmit x = false ∧ evIsNonIntrCpuWait x = false :=
                forall_mem_append (mapList_P1 htb) (createList_P1 htj)
              split
              · -- pin failure
                refine ⟨tbufs ++ tjob, host1x_job_put_trace 1 false used ++
                  free_job_data_trace (some used) ++ [Ev.boPut, Ev.ctxUnlock],
                  by simp, hP1, ?_⟩
                exact forall_mem_append (forall_mem_append (jobPut_P2 1 false used)
                  (mapList_P2 (free_job_data_shape (some used)))) (by decide)
              · split
                · -- pm failure
                  refine ⟨tbufs ++ tjob,
                    [Ev.jobPin, Ev.pmGet, Ev.pmPut, Ev.jobUnpin] ++
                      host1x_job_put_trace 1 false used ++
                      free_job_data_trace (some used) ++ [Ev.boPut, Ev.ctxUnlock],
                    by simp, hP1, ?_⟩
                  exact forall_mem_append (forall_mem_append (forall_mem_append
                    (by decide) (jobPut_P2 1 false used))
                    (mapList_P2 (free_job_data_shape (some used)))) (by decide)
                · split
                  · -- reservation-locking failure
                    refine ⟨tbufs ++ tjob,
                      [Ev.jobPin, Ev.pmGet, Ev.pmPut, Ev.jobUnpin] ++
                        host1x_job_put_trace 1 true used ++
                        free_job_data_trace none ++ [Ev.boPut, Ev.ctxUnlock],
                      by simp, hP1, ?_⟩
                    exact forall_mem_append (forall_mem_append (forall_mem_append
                      (by decide) (jobPut_P2 1 true used))
                      (mapList_P2 (free_job_data_shape none))) (by decide)
                  · split
                    · -- hardware-submit failure
                      refine ⟨tbufs ++ tjob,
                        [Ev.jobPin, Ev.pmGet] ++
                          (if ni = true then [Ev.resvUnlockAll] else []) ++
                          [Ev.pmPut, Ev.jobUnpin] ++
                          host1x_job_put_trace 1 true used ++
                          free_job_data_trace none ++ [Ev.boPut, Ev.ctxUnlock],
                        by simp, hP1, ?_⟩
                      refine forall_mem_append (forall_mem_append
                        (forall_mem_append (forall_mem_append (forall_mem_append
                          (by decide) ?_) (by decide)) (jobPut_P2 1 true used))
                        (mapList_P2 (free_job_data_shape none))) (by decide)
                      split
                      · decide
                      · simp
                    · -- success
                      refine ⟨tbufs ++ tjob,
                        [Ev.jobPin, Ev.pmGet, Ev.hwSubmit] ++
                          (if ni = true then
                            [Ev.resvUnlockAll, Ev.implicitFenceWait] ++
                              (if o.implicitWaitOk = true then [Ev.syncptIncr] else [])
                          else []) ++
                          host1x_job_put_trace 2 true used ++
                          free_job_data_trace none ++ [Ev.boPut, Ev.ctxUnlock],
                        by simp, hP1, ?_⟩
                      refine forall_mem_append (forall_mem_append
                        (forall_mem_append (forall_mem_append
                          (by decide) ?_) (jobPut_P2 2 true used))
                        (mapList_P2 (free_job_data_shape none))) (by decide)
                      split
                      · refine forall_mem_append (by decide) ?_
                        split
                        · decide
                        · simp
                      · simp

theorem createJobLoop_wait_count (bo : GatherBo) (o : SubmitOracle) :
    ∀ (cmds : List SubmitCmd) (job : Job) (go : Nat) (jg : Job × Nat),
      (createJobLoop bo o job go cmds).2 = .ok jg →
      jg.1.ops.countP isWaitOp =
        job.ops.countP isWaitOp + cmds.countP isWaitSyncptCmd := by
  intro cmds
  induction cmds with
  | nil =>
    intro job go jg h
    simp only [createJobLoop] at h
    cases h
    simp
  | cons c rest ih =>
    intro job go jg h
    cases c with
    | gatherUptr words r0 r1 r2 =>
      simp only [createJobLoop] at h
      split at h
      · nomatch h
      · split at h
        · nomatch h
        · split at h
          · nomatch h
          · have hr := ih _ _ _ h
            rw [hr]
            simp [List.countP_append, List.countP_cons, isWaitOp, isWaitSyncptCmd]
    | waitSyncpt id threshold r0 r1 =>
      simp only [createJobLoop] at h
      split at h
      · nomatch h
      · have hr := ih _ _ _ h
        rw [hr]
        simp [List.countP_append, List.countP_cons, isWaitOp, isWaitSyncptCmd]
        omega
    | waitSyncFile fd r0 r1 r2 =>
      simp only [createJobLoop] at h
      split at h
      · nomatch h
      · split at h
        · nomatch h
        · split at h
          · nomatch h
          · have hr := ih _ _ _ h
            rw [hr]
            simp [List.countP_cons, isWaitSyncptCmd]
    | unknown ty =>
      simp only [createJobLoop] at h
      nomatch h

theorem submit_create_job_wait_count (bo : GatherBo) (args : SubmitArgs)
    (o : SubmitOracle) (ni : Bool) (k : Nat) (job : Job)
    (h : (submit_create_job bo args o ni k).2 = .ok job) :
    job.ops.countP isWaitOp =
      (if ni = true then 1 else 0) + args.cmds.countP isWaitSyncptCmd := by
  unfold submit_create_job at h
  split at h
  · nomatch h
  · split at h
    · nomatch h
    · split at h
      · nomatch h
      · split at h
        · rename_i hni
          dsimp only at h
          split at h
          · nomatch h
          · rename_i t jobX go heq
            split at h
            · nomatch h
            · have hj : jobX = job := by
                simpa using h
              subst hj
              have hw := createJobLoop_wait_count bo o args.cmds _ _ _
                (by rw [heq])
              rw [if_pos hni]
              rw [hw]
              simp [isWaitOp]
        · rename_i hni
          dsimp only at h
          split at h
          · nomatch h
          · rename_i t jobX go heq
            split at h
            · nomatch h
            · have hj : jobX = job := by
                simpa using h
              subst hj
              have hw := createJobLoop_wait_count bo o args.cmds _ _ _
                (by rw [heq])
              rw [if_neg hni]
              rw [hw]
              simp

theorem createJobLoop_fd_none (bo : GatherBo) (o : SubmitOracle) (fd : Nat)
    (hfd : o.syncFileFence fd = none) :
    ∀ (good : List SubmitCmd) (rest : List SubmitCmd) (job : Job) (go : Nat),
      (∀ c ∈ good, cmdRuns o c) →
      (createJobLoop bo o job go
        (good ++ .waitSyncFile fd 0 0 0 :: rest)).2 = .error .EINVAL := by
  intro good
  induction good with
  | nil =>
    intro rest job go _
    simp [createJobLoop, hfd]
  | cons c gs ih =>
    intro rest job go hrun
    have hc := hrun c (List.mem_cons_self ..)
    have hrest : ∀ x ∈ gs, cmdRuns o x :=
      fun x hx => hrun x (List.mem_cons_of_mem c hx)
    cases c with
    | gatherUptr words r0 r1 r2 =>
      have hcb : ¬cmdBad (.gatherUptr words r0 r1 r2) := hc
      simp only [List.cons_append, createJobLoop]
      rw [if_neg (by simp only [cmdBad] at hcb; omega)]
      rw [if_neg (by simp only [cmdBad] at hcb; omega)]
      split
      · rfl
      · exact ih rest _ _ hrest
    | waitSyncpt id threshold r0 r1 =>
      have hcb : ¬cmdBad (.waitSyncpt id threshold r0 r1) := hc
      simp only [List.cons_append, createJobLoop]
      rw [if_neg (by simp only [cmdBad] at hcb; omega)]
      exact ih rest _ _ hrest
    | waitSyncFile fd2 r0 r1 r2 =>
      obtain ⟨hcb, f, hsome, hwait⟩ := hc
      simp only [List.cons_append, createJobLoop]
      rw [if_neg (by simp only [cmdBad] at hcb; omega)]
      simp only [hsome, hwait]
      exact ih rest _ _ hrest
    | unknown ty =>
      exact absurd trivial hc

theorem submit_create_job_fd_none (bo : GatherBo) (args : SubmitArgs)
    (o : SubmitOracle) (ni : Bool) (k : Nat) (fd : Nat)
    (good rest : List SubmitCmd)
    (hcc : o.cmdsCopyRes = none) (hja : o.jobAllocOk = true)
    (hsp : ∃ sp, o.syncptFdRes = .ok sp)
    (hfd : o.syncFileFence fd = none)
    (hcmds : args.cmds = good ++ .waitSyncFile fd 0 0 0 :: rest)
    (hrun : ∀ c ∈ good, cmdRuns o c) :
    (submit_create_job bo args o ni k).2 = .error .EINVAL := by
  unfold submit_create_job
  simp only [hcc]
  rw [if_neg (by simp [hja])]
  cases hg : submit_get_syncpt args o with
  | error e =>
    simp only [hg]
    rw [(submit_get_syncpt_spec args o hsp).1 e hg]
  | ok r =>
    obtain ⟨spid, nincr⟩ := r
    simp only [hg]
    split
    · rename_i t e heq
      have he2 : ((t, Except.error e) : List Ev × Except Err (Job × Nat)).2 =
          Except.error Err.EINVAL := by
        rw [← heq, hcmds]
        exact createJobLoop_fd_none bo o fd hfd good rest _ 0 hrun
      have he3 : e = .EINVAL := by simpa using he2
      rw [he3]
    · rename_i t job go heq
      exfalso
      have he2 : ((t, Except.ok (job, go)) : List Ev × Except Err (Job × Nat)).2 =
          Except.error Err.EINVAL := by
        rw [← heq, hcmds]
        exact createJobLoop_fd_none bo o fd hfd good rest _ 0 hrun
      nomatch he2

/-- C10: sync-file waits are resolved and awaited CPU-side,
interruptibly, during job construction and never at or after job pin or
hardware submission (on every path of the ioctl); a successful job's
hardware wait operations come only from `WAIT_SYNCPT` commands plus the
implicit-fence pre-wait, never from `WAIT_SYNC_FILE`; and a descriptor
that does not resolve to a fence fails the submission with `-EINVAL`. -/
theorem C10_sync_file_waits :
    (∀ (ctx : List (Nat × Mapping)) (args : SubmitArgs) (o : SubmitOracle)
        (k : Nat),
      (∀ e ∈ (tegra_drm_ioctl_channel_submit ctx args o k).1,
        evIsNonIntrCpuWait e = false) ∧
      cpuWaitAfter (tegra_drm_ioctl_channel_submit ctx args o k).1 = false) ∧
    (∀ (bo : GatherBo) (args : SubmitArgs) (o : SubmitOracle) (ni : Bool)
        (k : Nat) (job : Job),
      (submit_create_job bo args o ni k).2 = .ok job →
      job.ops.countP isWaitOp =
        (if ni = true then 1 else 0) + args.cmds.countP isWaitSyncptCmd) ∧
    (∀ (ctx : List (Nat × Mapping)) (args : SubmitArgs) (o : SubmitOracle)
        (k : Nat) (tb : List Ev) (bo2 : GatherBo) (used : List UsedMapping)
        (ni : Bool) (fd : Nat) (good rest : List SubmitCmd),
      args.reserved0 = 0 → args.reserved1 = 0 →
      o.ctxFound = true → o.copyGatherRes = none → args.gather_data ≠ [] →
      o.jobDataAllocOk = true → o.cmdsCopyRes = none → o.jobAllocOk = true →
      (∃ sp, o.syncptFdRes = .ok sp) →
      o.syncFileFence fd = none →
      args.cmds = good ++ .waitSyncFile fd 0 0 0 :: rest →
      (∀ c ∈ good, cmdRuns o c) →
      submit_process_bufs ctx ⟨args.gather_data⟩ args o =
        (tb, .ok (bo2, used, ni)) →
      (tegra_drm_ioctl_channel_submit ctx args o k).2 = .error .EINVAL) := by
  refine ⟨fun ctx args o k => ?_, submit_create_job_wait_count, ?_⟩
  · obtain ⟨t1, t2, ht, h1, h2⟩ := ioctl_trace_split ctx args o k
    rw [ht]
    exact ⟨forall_mem_append (fun e he => (h1 e he).2) (fun e he => (h2 e he).2),
      cpuWaitAfter_append (fun e he => (h1 e he).1) (fun e he => (h2 e he).1)⟩
  · intro ctx args o k tb bo2 used ni fd good rest hres0 hres1 hctx hcg hgd hjd
      hcc hja hsp hfd hcmds hrun hpb
    have hcj2 := submit_create_job_fd_none bo2 args o ni k fd good rest
      hcc hja hsp hfd hcmds hrun
    rcases hcjEq : submit_create_job bo2 args o ni k with ⟨tj, rj⟩
    rw [hcjEq] at hcj2
    have hrj : rj = .error .EINVAL := hcj2
    subst hrj
    have hio := @ioctl_create_error ctx args o k tb bo2 used ni tj .EINVAL
      hres0 hres1 hctx hcg hgd hjd hpb hcjEq
    rw [hio]

/-- Witness for C10: all three parts at concrete inputs — the minimal
one-gather submission (no non-interruptible sync-file waits, none after
pin/submit), its successfully created job carrying zero hardware waits,
and a submission whose sync-file descriptor 3 resolves to no fence
failing with `-EINVAL`. -/
theorem C10_sync_file_waits_witness :
    cpuWaitAfter (tegra_drm_ioctl_channel_submit exCtx exArgs exOracleOk 0).1 =
      false ∧
    (⟨[.gather 4 0], 7, 1, 1, false⟩ : Job).ops.countP isWaitOp =
      (if false = true then 1 else 0) + exArgs.cmds.countP isWaitSyncptCmd ∧
    (tegra_drm_ioctl_channel_submit exCtx
      { exArgs with cmds := [.waitSyncFile 3 0 0 0, .gatherUptr 4 0 0 0] }
      { exOracleOk with syncFileFence := fun _ => none } 0).2 =
      .error .EINVAL :=
  ⟨(C10_sync_file_waits.1 exCtx exArgs exOracleOk 0).2,
   C10_sync_file_waits.2.1 ⟨[0, 0, 0, 0]⟩ exArgs exOracleOk false 0
     ⟨[.gather 4 0], 7, 1, 1, false⟩ rfl,
   C10_sync_file_waits.2.2 exCtx
     { exArgs with cmds := [.waitSyncFile 3 0 0 0, .gatherUptr 4 0 0 0] }
     { exOracleOk with syncFileFence := fun _ => none } 0
     [Ev.mapGet 1] ⟨[4096, 0, 0, 0]⟩ [⟨1, ⟨4096⟩, 0⟩] false 3
     [] [.gatherUptr 4 0 0 0]
     rfl rfl rfl rfl (by decide) rfl rfl rfl ⟨7, rfl⟩ rfl rfl
     (by intro c hc; exact absurd hc (List.not_mem_nil c)) rfl⟩
